import Mathlib

set_option autoImplicit false

/-!
Shallow embedding of `src/wrappers/gym_wrappers.py`: the `PreprocessImage`
observation wrapper, the `FrameBuffer` frame-stacking wrapper and the
`EnvPool` batched environment pool, together with proofs of the behavioural
properties stated in the specification.

Numpy arrays are modelled as row-major flat data lists paired with a shape
(`STensor`); python object identity and in-place mutation are modelled with
an explicit heap of cells addressed by natural numbers (`Heap`).
-/

/-- Product of a list of dimensions (numpy `prod(shape)`). -/
def listProd (l : List Nat) : Nat := l.foldr (· * ·) 1

/-- A numpy-style tensor: a shape together with row-major flat data. -/
structure STensor (α : Type) where
  shape : List Nat
  data : List α
deriving Repr, DecidableEq

/-- Numpy `reshape`: succeeds exactly when the element count matches the
requested shape, keeping the row-major data; otherwise numpy raises, which
we model as `none`. -/
def npReshape {α : Type} (t : STensor α) (newShape : List Nat) : Option (STensor α) :=
  if t.data.length = listProd newShape then some ⟨newShape, t.data⟩ else none

/-- Replace the last entry of a shape by itself times `k`
(`result_shape[-1] = result_shape[-1] * n_frames`). On the empty list python
would raise an IndexError; that case is unreachable here. -/
def mulLast : List Nat → Nat → List Nat
  | [], _ => []
  | [x], k => [x * k]
  | x :: y :: xs, k => x :: mulLast (y :: xs) k

namespace FrameBuffer

/-- The `result_shape` computed in `FrameBuffer.__init__` (lines 58-62 of
`gym_wrappers.py`): start from the base observation shape, append a unit
axis when the shape is one-dimensional ("so, its linear env"), then multiply
the last axis by `n_frames`. -/
def result_shape (baseShape : List Nat) (n_frames : Nat) : List Nat :=
  let rs := if baseShape.length = 1 then baseShape ++ [1] else baseShape
  mulLast rs n_frames

/-- Column `j` of the frame stack: the `j`-th entry of every frame, newest
frame first. -/
def columnAt (buf : List (List Rat)) (j : Nat) : List Rat :=
  buf.map (fun fr => fr.getD j 0)

/-- Row-major flat data of `np.transpose(x, shape_dims)` where `x` has shape
`(n_frames, *base_shape)` (each frame stored flattened, length `frameSize`)
and `shape_dims` moves axis 0 (the history axis) to the end, keeping the
base axes in order: entry `j * n_frames + k` of the result is entry `j` of
frame `k`. -/
def transposeToLast (buf : List (List Rat)) (frameSize : Nat) : List Rat :=
  ((List.range frameSize).map (columnAt buf)).flatten

/-- The auto-generated `reshape_fn` of `FrameBuffer.__init__` (line 64):
`lambda x: np.transpose(x, shape_dims).reshape(result_shape)`. -/
def reshape_fn (baseShape : List Nat) (n_frames : Nat) (buf : List (List Rat)) :
    Option (STensor Rat) :=
  npReshape ⟨baseShape ++ [buf.length], transposeToLast buf (listProd baseShape)⟩
    (result_shape baseShape n_frames)

/-- The initial frame buffer of `FrameBuffer.__init__` (line 51):
`np.zeros([n_frames] + list(env.observation_space.shape))`. -/
def initialBuffer (baseShape : List Nat) (n_frames : Nat) : List (List Rat) :=
  List.replicate n_frames (List.replicate (listProd baseShape) 0)

/-- The shape advertised by `FrameBuffer.observation_space` (line 67):
the shape of `reshape_fn(framebuffer)` applied to the freshly allocated
zero buffer (`none` would mean the reshape raises). -/
def observation_space_shape (baseShape : List Nat) (n_frames : Nat) : Option (List Nat) :=
  (reshape_fn baseShape n_frames (initialBuffer baseShape n_frames)).map STensor.shape

end FrameBuffer

/-- Behaviour of the environment wrapped by a `FrameBuffer`, as a pure
transition system over states `S`: `reset` returns the new state and the
initial observation, `step` returns the new state, the observation, the
reward, the done flag and the info value. Observations are flattened
row-major frames. -/
structure GymDyn (S A I : Type) where
  reset : S → S × List Rat
  step : S → A → S × List Rat × Rat × Bool × I

/-- Mutable attributes of a `FrameBuffer` instance: the wrapped
environment's state and `self.framebuffer` (a list of `n_frames` flattened
frames, newest first). -/
structure FBState (S : Type) where
  inner : S
  framebuffer : List (List Rat)
deriving Repr, DecidableEq

namespace FrameBuffer

/-- `FrameBuffer.update_buffer` (line 83):
`self.framebuffer = np.vstack([obs[None], self.framebuffer[:-1]])` — push
the new observation in front, drop the last (oldest) frame. -/
def update_buffer (buf : List (List Rat)) (obs : List Rat) : List (List Rat) :=
  obs :: buf.dropLast

/-- `FrameBuffer.reset` (lines 69-73): zero the buffer, push the wrapped
environment's initial observation, return the reshaped buffer. -/
def reset {S A I : Type} (dyn : GymDyn S A I) (st : FBState S)
    (baseShape : List Nat) (n_frames : Nat) : FBState S × Option (STensor Rat) :=
  let zeroed := st.framebuffer.map (fun fr => List.replicate fr.length (0 : Rat))
  let p := dyn.reset st.inner
  let buf := update_buffer zeroed p.2
  (⟨p.1, buf⟩, reshape_fn baseShape n_frames buf)

/-- `FrameBuffer.step` (lines 75-79): delegate to the wrapped environment,
push the new observation, return the reshaped buffer together with the
inner reward, done flag and info. -/
def step {S A I : Type} (dyn : GymDyn S A I) (st : FBState S)
    (baseShape : List Nat) (n_frames : Nat) (action : A) :
    FBState S × Option (STensor Rat) × Rat × Bool × I :=
  let q := dyn.step st.inner action
  let buf := update_buffer st.framebuffer q.2.1
  (⟨q.1, buf⟩, reshape_fn baseShape n_frames buf, q.2.2.1, q.2.2.2.1, q.2.2.2.2)

end FrameBuffer

/-- A well-formed frame buffer: exactly `n_frames` frames, each of the flat
size of the base observation shape. -/
def WFBuf (baseShape : List Nat) (n_frames : Nat) (buf : List (List Rat)) : Prop :=
  buf.length = n_frames ∧ ∀ fr ∈ buf, fr.length = listProd baseShape

@[simp] theorem listProd_nil : listProd [] = 1 := rfl

@[simp] theorem listProd_cons (x : Nat) (xs : List Nat) :
    listProd (x :: xs) = x * listProd xs := rfl

theorem listProd_mulLast (l : List Nat) (k : Nat) (hl : l ≠ []) :
    listProd (mulLast l k) = listProd l * k := by
  induction l with
  | nil => exact absurd rfl hl
  | cons x xs ih =>
      cases xs with
      | nil => simp [mulLast]
      | cons y ys =>
          have h := ih (by simp)
          simp only [mulLast, listProd_cons] at *
          rw [h]; ring

theorem mulLast_append (bs : List Nat) (b k : Nat) :
    mulLast (bs ++ [b]) k = bs ++ [b * k] := by
  induction bs with
  | nil => rfl
  | cons x xs ih =>
      cases xs with
      | nil => rfl
      | cons y ys => simpa [mulLast] using ih

namespace FrameBuffer

theorem length_transposeToLast (buf : List (List Rat)) (n : Nat) :
    (transposeToLast buf n).length = n * buf.length := by
  induction n with
  | zero => simp [transposeToLast]
  | succ k ih =>
      rw [transposeToLast, List.range_succ, List.map_append, List.flatten_append]
      simp only [List.map_cons, List.map_nil, List.flatten_cons, List.flatten_nil,
        List.append_nil, List.length_append]
      rw [← transposeToLast, ih]
      simp [columnAt, Nat.succ_mul]

/-- On a buffer of the declared frame count over a nonempty base shape, the
auto-generated reshape succeeds and produces exactly `result_shape`. -/
theorem reshape_fn_eq_some (base : List Nat) (K : Nat) (buf : List (List Rat))
    (hbase : base ≠ []) (hlen : buf.length = K) :
    reshape_fn base K buf =
      some ⟨result_shape base K, transposeToLast buf (listProd base)⟩ := by
  have hcond : (transposeToLast buf (listProd base)).length
      = listProd (result_shape base K) := by
    rw [length_transposeToLast, hlen]
    by_cases h1 : base.length = 1
    · obtain ⟨f, rfl⟩ := List.length_eq_one.mp h1
      simp [result_shape, mulLast]
    · simp only [result_shape, h1, if_false]
      rw [listProd_mulLast _ _ hbase]
  unfold reshape_fn npReshape
  split
  · rfl
  · next h => exact absurd hcond h

end FrameBuffer

theorem WFBuf_initial (base : List Nat) (K : Nat) :
    WFBuf base K (FrameBuffer.initialBuffer base K) := by
  refine ⟨by simp [FrameBuffer.initialBuffer], ?_⟩
  intro fr hfr
  rw [FrameBuffer.initialBuffer, List.mem_replicate] at hfr
  rw [hfr.2]
  simp

theorem WFBuf_zeroed (base : List Nat) (K : Nat) (buf : List (List Rat))
    (h : WFBuf base K buf) :
    WFBuf base K (buf.map (fun fr => List.replicate fr.length (0 : Rat))) := by
  refine ⟨by simp [h.1], ?_⟩
  intro fr hfr
  rw [List.mem_map] at hfr
  obtain ⟨fr0, h0, rfl⟩ := hfr
  simp [h.2 fr0 h0]

theorem WFBuf_update (base : List Nat) (K : Nat) (buf : List (List Rat))
    (obs : List Rat) (hK : 1 ≤ K) (h : WFBuf base K buf)
    (hobs : obs.length = listProd base) :
    WFBuf base K (FrameBuffer.update_buffer buf obs) := by
  constructor
  · simp only [FrameBuffer.update_buffer, List.length_cons, List.length_dropLast, h.1]
    omega
  · intro fr hfr
    rw [FrameBuffer.update_buffer, List.mem_cons] at hfr
    rcases hfr with rfl | hfr
    · exact hobs
    · exact h.2 fr ((List.dropLast_sublist buf).subset hfr)

theorem getElem?_dropLast {α : Type} (l : List α) (i : Nat) (h : i + 1 < l.length) :
    l.dropLast[i]? = l[i]? := by
  rw [List.dropLast_eq_take]
  exact List.getElem?_take_of_lt (by omega)

/-- Claim C6: after `FrameBuffer.reset`, the buffer is the freshly reset
initial observation followed by `K - 1` zero frames (for `K = 1`, just the
initial observation), and the returned value is the reshaped buffer. -/
theorem frameBuffer_reset_initial_stack {S A I : Type} (dyn : GymDyn S A I)
    (st : FBState S) (base : List Nat) (K : Nat) (hK : 1 ≤ K)
    (hwf : WFBuf base K st.framebuffer) :
    (FrameBuffer.reset dyn st base K).1.framebuffer =
      (dyn.reset st.inner).2 ::
        List.replicate (K - 1) (List.replicate (listProd base) (0 : Rat)) ∧
    (FrameBuffer.reset dyn st base K).2 =
      FrameBuffer.reshape_fn base K (FrameBuffer.reset dyn st base K).1.framebuffer := by
  have hzero : st.framebuffer.map (fun fr => List.replicate fr.length (0 : Rat))
      = List.replicate K (List.replicate (listProd base) (0 : Rat)) := by
    have h1 : ∀ b ∈ st.framebuffer.map (fun fr => List.replicate fr.length (0 : Rat)),
        b = List.replicate (listProd base) (0 : Rat) := by
      intro b hb
      rw [List.mem_map] at hb
      obtain ⟨fr, hfr, rfl⟩ := hb
      rw [hwf.2 fr hfr]
    have h2 := List.eq_replicate_of_mem h1
    rwa [List.length_map, hwf.1] at h2
  constructor
  · show FrameBuffer.update_buffer
        (st.framebuffer.map (fun fr => List.replicate fr.length (0 : Rat)))
        (dyn.reset st.inner).2 = _
    rw [FrameBuffer.update_buffer, hzero, List.dropLast_eq_take, List.take_replicate,
      List.length_replicate, Nat.min_eq_left (Nat.sub_le _ _)]
  · rfl

/-- Concrete wrapped-environment dynamics used by the witnesses: flat base
shape `[1]`, reset observation `[5]`, step observation `[7]`, reward 1,
done false. -/
def fbWitDyn : GymDyn Nat Unit Unit where
  reset := fun s => (s + 1, [5])
  step := fun s _ => (s + 1, [7], 1, false, ())

theorem frameBuffer_reset_initial_stack_witness :
    ((1 : Nat) ≤ 2 ∧ WFBuf [1] 2 (FBState.framebuffer ⟨0, [[2], [3]]⟩)) ∧
    ((FrameBuffer.reset fbWitDyn ⟨0, [[2], [3]]⟩ [1] 2).1.framebuffer =
      (fbWitDyn.reset (FBState.inner ⟨0, [[2], [3]]⟩)).2 ::
        List.replicate (2 - 1) (List.replicate (listProd [1]) (0 : Rat)) ∧
    (FrameBuffer.reset fbWitDyn ⟨0, [[2], [3]]⟩ [1] 2).2 =
      FrameBuffer.reshape_fn [1] 2
        (FrameBuffer.reset fbWitDyn ⟨0, [[2], [3]]⟩ [1] 2).1.framebuffer) :=
  ⟨⟨by decide, ⟨by decide, by decide⟩⟩,
    frameBuffer_reset_initial_stack fbWitDyn ⟨0, [[2], [3]]⟩ [1] 2 (by decide)
      ⟨by decide, by decide⟩⟩

/-- Claim C7: `FrameBuffer.step` delegates the action to the wrapped
environment, pushes the new observation as a length-K FIFO (new observation
at index 0, previous frame `i` moves to index `i + 1`, the oldest frame at
index `K - 1` is dropped) and returns the reshaped buffer together with the
inner environment's reward, done flag and info unchanged. -/
theorem frameBuffer_step_fifo {S A I : Type} (dyn : GymDyn S A I) (st : FBState S)
    (base : List Nat) (K : Nat) (a : A) (hK : 1 ≤ K)
    (hlen : st.framebuffer.length = K) :
    (FrameBuffer.step dyn st base K a).2.2.1 = (dyn.step st.inner a).2.2.1 ∧
    (FrameBuffer.step dyn st base K a).2.2.2.1 = (dyn.step st.inner a).2.2.2.1 ∧
    (FrameBuffer.step dyn st base K a).2.2.2.2 = (dyn.step st.inner a).2.2.2.2 ∧
    (FrameBuffer.step dyn st base K a).1.framebuffer
      = (dyn.step st.inner a).2.1 :: st.framebuffer.dropLast ∧
    (FrameBuffer.step dyn st base K a).1.framebuffer.length = K ∧
    (FrameBuffer.step dyn st base K a).1.framebuffer[0]?
      = some (dyn.step st.inner a).2.1 ∧
    (∀ i, i + 1 < K →
      (FrameBuffer.step dyn st base K a).1.framebuffer[i + 1]?
        = st.framebuffer[i]?) ∧
    (FrameBuffer.step dyn st base K a).2.1
      = FrameBuffer.reshape_fn base K (FrameBuffer.step dyn st base K a).1.framebuffer := by
  refine ⟨rfl, rfl, rfl, rfl, ?_, ?_, ?_, rfl⟩
  · show ((dyn.step st.inner a).2.1 :: st.framebuffer.dropLast).length = K
    simp only [List.length_cons, List.length_dropLast, hlen]
    omega
  · show ((dyn.step st.inner a).2.1 :: st.framebuffer.dropLast)[0]?
      = some (dyn.step st.inner a).2.1
    simp
  · intro i hi
    show ((dyn.step st.inner a).2.1 :: st.framebuffer.dropLast)[i + 1]? = _
    simp only [List.getElem?_cons_succ]
    exact getElem?_dropLast _ _ (by omega)

theorem frameBuffer_step_fifo_witness :
    ((1 : Nat) ≤ 2 ∧ (FBState.framebuffer (⟨0, [[2], [3]]⟩ : FBState Nat)).length = 2) ∧
    ((FrameBuffer.step fbWitDyn ⟨0, [[2], [3]]⟩ [1] 2 ()).2.2.1
      = (fbWitDyn.step 0 ()).2.2.1 ∧
    (FrameBuffer.step fbWitDyn ⟨0, [[2], [3]]⟩ [1] 2 ()).2.2.2.1
      = (fbWitDyn.step 0 ()).2.2.2.1 ∧
    (FrameBuffer.step fbWitDyn ⟨0, [[2], [3]]⟩ [1] 2 ()).2.2.2.2
      = (fbWitDyn.step 0 ()).2.2.2.2 ∧
    (FrameBuffer.step fbWitDyn ⟨0, [[2], [3]]⟩ [1] 2 ()).1.framebuffer
      = (fbWitDyn.step 0 ()).2.1 :: [[2], [3]].dropLast ∧
    (FrameBuffer.step fbWitDyn ⟨0, [[2], [3]]⟩ [1] 2 ()).1.framebuffer.length = 2 ∧
    (FrameBuffer.step fbWitDyn ⟨0, [[2], [3]]⟩ [1] 2 ()).1.framebuffer[0]?
      = some (fbWitDyn.step 0 ()).2.1 ∧
    (∀ i, i + 1 < 2 →
      (FrameBuffer.step fbWitDyn ⟨0, [[2], [3]]⟩ [1] 2 ()).1.framebuffer[i + 1]?
        = ([[2], [3]] : List (List Rat))[i]?) ∧
    (FrameBuffer.step fbWitDyn ⟨0, [[2], [3]]⟩ [1] 2 ()).2.1
      = FrameBuffer.reshape_fn [1] 2
          (FrameBuffer.step fbWitDyn ⟨0, [[2], [3]]⟩ [1] 2 ()).1.framebuffer) :=
  ⟨⟨by decide, by decide⟩,
    frameBuffer_step_fifo fbWitDyn ⟨0, [[2], [3]]⟩ [1] 2 () (by decide) (by decide)⟩

/-- One call made to a `FrameBuffer` instance: either `reset()` or
`step(a)`. -/
inductive FBOp (A : Type) where
  | doReset : FBOp A
  | doStep (a : A) : FBOp A

/-- Run a `FrameBuffer` through a sequence of reset/step calls, collecting
the observation tensor returned by each call. -/
def fbRun {S A I : Type} (dyn : GymDyn S A I) (base : List Nat) (K : Nat) :
    FBState S → List (FBOp A) → FBState S × List (Option (STensor Rat))
  | st, [] => (st, [])
  | st, FBOp.doReset :: ops =>
      let p := FrameBuffer.reset dyn st base K
      let q := fbRun dyn base K p.1 ops
      (q.1, p.2 :: q.2)
  | st, FBOp.doStep a :: ops =>
      let p := FrameBuffer.step dyn st base K a
      let q := fbRun dyn base K p.1 ops
      (q.1, p.2.1 :: q.2)

theorem fbRun_shapes {S A I : Type} (dyn : GymDyn S A I) (base : List Nat) (K : Nat)
    (hK : 1 ≤ K) (hbase : base ≠ [])
    (hr : ∀ s, (dyn.reset s).2.length = listProd base)
    (hs : ∀ s a, (dyn.step s a).2.1.length = listProd base)
    (ops : List (FBOp A)) (st : FBState S) (hwf : WFBuf base K st.framebuffer) :
    (∀ o ∈ (fbRun dyn base K st ops).2,
      o.map STensor.shape = some (FrameBuffer.result_shape base K)) ∧
    WFBuf base K (fbRun dyn base K st ops).1.framebuffer := by
  induction ops generalizing st with
  | nil => exact ⟨by simp [fbRun], hwf⟩
  | cons op ops ih =>
      cases op with
      | doReset =>
          have hwf' : WFBuf base K (FrameBuffer.reset dyn st base K).1.framebuffer :=
            WFBuf_update base K _ _ hK (WFBuf_zeroed base K _ hwf) (hr _)
          have ihh := ih (FrameBuffer.reset dyn st base K).1 hwf'
          refine ⟨?_, by simpa [fbRun] using ihh.2⟩
          intro o ho
          simp only [fbRun] at ho
          rcases List.mem_cons.mp ho with rfl | ho
          · have hsome := FrameBuffer.reshape_fn_eq_some base K
              (FrameBuffer.reset dyn st base K).1.framebuffer hbase hwf'.1
            show (FrameBuffer.reshape_fn base K
              (FrameBuffer.reset dyn st base K).1.framebuffer).map STensor.shape = _
            rw [hsome]
            rfl
          · exact ihh.1 o ho
      | doStep a =>
          have hwf' : WFBuf base K (FrameBuffer.step dyn st base K a).1.framebuffer :=
            WFBuf_update base K _ _ hK hwf (hs _ _)
          have ihh := ih (FrameBuffer.step dyn st base K a).1 hwf'
          refine ⟨?_, by simpa [fbRun] using ihh.2⟩
          intro o ho
          simp only [fbRun] at ho
          rcases List.mem_cons.mp ho with rfl | ho
          · have hsome := FrameBuffer.reshape_fn_eq_some base K
              (FrameBuffer.step dyn st base K a).1.framebuffer hbase hwf'.1
            show (FrameBuffer.reshape_fn base K
              (FrameBuffer.step dyn st base K a).1.framebuffer).map STensor.shape = _
            rw [hsome]
            rfl
          · exact ihh.1 o ho

theorem result_shape_of_two_axes (base : List Nat) (K : Nat) (hbase : 2 ≤ base.length) :
    FrameBuffer.result_shape base K = base.dropLast ++ [base.getLastD 1 * K] := by
  rcases List.eq_nil_or_concat base with rfl | ⟨bs, b, rfl⟩
  · simp at hbase
  · rw [List.concat_eq_append] at *
    have hlen1 : ¬ (bs ++ [b]).length = 1 := by
      simp only [List.length_append, List.length_singleton] at *
      omega
    rw [FrameBuffer.result_shape]
    simp only [hlen1, if_false]
    rw [mulLast_append]
    simp

/-- Claim C8: for `K ≥ 1` and a base shape with at least two axes, the
exported observation shape equals `(*base_shape[:-1], base_shape[-1]*K)`,
it is declared at construction, and every observation returned by any
sequence of reset/step calls has exactly this shape. -/
theorem frameBuffer_shape_invariant {S A I : Type} (dyn : GymDyn S A I)
    (base : List Nat) (K : Nat) (hK : 1 ≤ K) (hbase : 2 ≤ base.length)
    (hr : ∀ s, (dyn.reset s).2.length = listProd base)
    (hs : ∀ s a, (dyn.step s a).2.1.length = listProd base)
    (s0 : S) (ops : List (FBOp A)) :
    FrameBuffer.observation_space_shape base K
      = some (base.dropLast ++ [base.getLastD 1 * K]) ∧
    ∀ o ∈ (fbRun dyn base K ⟨s0, FrameBuffer.initialBuffer base K⟩ ops).2,
      o.map STensor.shape = some (base.dropLast ++ [base.getLastD 1 * K]) := by
  have hne : base ≠ [] := by
    intro h
    rw [h] at hbase
    simp at hbase
  have hres := result_shape_of_two_axes base K hbase
  constructor
  · rw [FrameBuffer.observation_space_shape,
      FrameBuffer.reshape_fn_eq_some base K _ hne (WFBuf_initial base K).1, ← hres]
    rfl
  · intro o ho
    rw [← hres]
    exact (fbRun_shapes dyn base K hK hne hr hs ops _ (WFBuf_initial base K)).1 o ho

/-- Wrapped-environment dynamics over base shape `[2, 3]` used by the C8
witness. -/
def fbWitDyn2 : GymDyn Unit Unit Unit where
  reset := fun _ => ((), List.replicate 6 0)
  step := fun _ _ => ((), List.replicate 6 0, 0, false, ())

theorem frameBuffer_shape_invariant_witness :
    ((1 : Nat) ≤ 2 ∧ 2 ≤ ([2, 3] : List Nat).length ∧
      (∀ s, (fbWitDyn2.reset s).2.length = listProd [2, 3]) ∧
      (∀ s a, (fbWitDyn2.step s a).2.1.length = listProd [2, 3])) ∧
    (FrameBuffer.observation_space_shape [2, 3] 2
      = some (([2, 3] : List Nat).dropLast ++ [([2, 3] : List Nat).getLastD 1 * 2]) ∧
    ∀ o ∈ (fbRun fbWitDyn2 [2, 3] 2 ⟨(), FrameBuffer.initialBuffer [2, 3] 2⟩
        [FBOp.doReset, FBOp.doStep ()]).2,
      o.map STensor.shape
        = some (([2, 3] : List Nat).dropLast ++ [([2, 3] : List Nat).getLastD 1 * 2])) :=
  ⟨⟨by decide, by decide, fun () => by decide, fun () () => by decide⟩,
    frameBuffer_shape_invariant fbWitDyn2 [2, 3] 2 (by decide) (by decide)
      (fun () => by decide) (fun () () => by decide) () [FBOp.doReset, FBOp.doStep ()]⟩

/-- Claim C3 counterexample: for the flat base shape `[2]` and `K = 3` the
exported observation shape is the two-dimensional `[2, 3]`, not the
one-dimensional `[features * K] = [6]` stated by the claim. -/
theorem frameBuffer_flat_shape_cex :
    FrameBuffer.observation_space_shape [2] 3 = some [2, 3] ∧
    FrameBuffer.observation_space_shape [2] 3 ≠ some [2 * 3] := by
  constructor
  · decide
  · decide

/-- Claim C3 (amended): for a flat feature-vector base shape `[features]`
and any `K ≥ 1`, the exported observation shape is the two-dimensional
`[features, K]` (a unit axis is appended and then multiplied by `K`), not
the flat `[features * K]`. -/
theorem frameBuffer_flat_shape (features K : Nat) (hK : 1 ≤ K) :
    FrameBuffer.observation_space_shape [features] K = some [features, K] := by
  rw [FrameBuffer.observation_space_shape,
    FrameBuffer.reshape_fn_eq_some [features] K _ (by simp) (WFBuf_initial [features] K).1]
  simp [FrameBuffer.result_shape, mulLast]

theorem frameBuffer_flat_shape_witness :
    (1 : Nat) ≤ 3 ∧
    FrameBuffer.observation_space_shape [2] 3 = some [2, 3] :=
  ⟨by decide, frameBuffer_flat_shape 2 3 (by decide)⟩

/-- Numpy `img.mean(-1, keepdims=True)` on an integer image: average over
the trailing (channel) axis, keeping it with size 1. Numpy rejects a
zero-axis array; that degenerate case never arises for images. -/
def npMeanLast (t : STensor Nat) : STensor Rat :=
  let c := t.shape.getLastD 0
  ⟨t.shape.dropLast ++ [1],
   (List.range (listProd t.shape.dropLast)).map (fun j =>
     (((List.range c).map
         (fun k => ((t.data.getD (j * c + k) 0 : Nat) : Rat))).sum) / (c : Rat))⟩

namespace PreprocessImage

/-- `PreprocessImage._observation` (lines 36-43): apply the crop function
(the resolved `self.crop`; identity when the `crop` argument was `None`),
resize via the external `imresize` primitive, optionally grayscale by
averaging the channel axis with `keepdims=True`, then cast to float and
divide by 255. -/
def observation (crop : STensor Nat → STensor Nat)
    (imresize : STensor Nat → Nat × Nat → STensor Nat)
    (img_size : Nat × Nat) (grayscale : Bool) (img : STensor Nat) : STensor Rat :=
  let cropped := crop img
  let resized := imresize cropped img_size
  let gs : STensor Rat :=
    if grayscale then npMeanLast resized
    else ⟨resized.shape, resized.data.map (fun (v : Nat) => (v : Rat))⟩
  ⟨gs.shape, gs.data.map (fun v => v / 255)⟩

end PreprocessImage

theorem getD_le_of_all : ∀ (l : List Nat) (B i : Nat), (∀ v ∈ l, v ≤ B) → l.getD i 0 ≤ B
  | [], B, i, _ => by simp
  | x :: _, _, 0, h => h x (List.mem_cons_self _ _)
  | _ :: xs, B, i + 1, h =>
      getD_le_of_all xs B i (fun v hv => h v (List.mem_cons_of_mem _ hv))

/-- Each entry of the channel mean of byte data lies in `[0, 255]`. -/
theorem mean_entry_bounds (data : List Nat) (hd : ∀ v ∈ data, v ≤ 255) (c j : Nat) :
    0 ≤ (((List.range c).map
        (fun k => ((data.getD (j * c + k) 0 : Nat) : Rat))).sum) / (c : Rat) ∧
    (((List.range c).map
        (fun k => ((data.getD (j * c + k) 0 : Nat) : Rat))).sum) / (c : Rat) ≤ 255 := by
  have hnn : (0 : Rat) ≤ ((List.range c).map
      (fun k => ((data.getD (j * c + k) 0 : Nat) : Rat))).sum := by
    apply List.sum_nonneg
    intro x hx
    rw [List.mem_map] at hx
    obtain ⟨k, _, rfl⟩ := hx
    positivity
  have hub : ((List.range c).map
      (fun k => ((data.getD (j * c + k) 0 : Nat) : Rat))).sum ≤ 255 * (c : Rat) := by
    have h1 := List.sum_le_card_nsmul
      ((List.range c).map (fun k => ((data.getD (j * c + k) 0 : Nat) : Rat))) 255 ?_
    · rw [List.length_map, List.length_range, nsmul_eq_mul] at h1
      exact h1.trans_eq (mul_comm _ _)
    · intro x hx
      rw [List.mem_map] at hx
      obtain ⟨k, _, rfl⟩ := hx
      exact_mod_cast getD_le_of_all data 255 _ hd
  constructor
  · exact div_nonneg hnn (by positivity)
  · rcases Nat.eq_zero_or_pos c with rfl | hc
    · simp
    · rw [div_le_iff₀ (by exact_mod_cast hc)]
      exact hub

theorem npMeanLast_shape_concat (t : STensor Nat) (s : List Nat) (c : Nat)
    (h : t.shape = s ++ [c]) : (npMeanLast t).shape = s ++ [1] := by
  show t.shape.dropLast ++ [1] = s ++ [1]
  rw [h, List.dropLast_concat]

/-- Claim C9: assuming the external resize primitive returns a
`(height, width, channels)` byte image (values at most 255) preserving the
channel count, every value of the transform output lies in `[0, 1]` for
every crop function, target size, grayscale flag and raw input; and the
grayscale transform with target 64×64 and the default identity crop maps
any 3-channel image to an output of shape exactly `(64, 64, 1)`. -/
theorem preprocessImage_range_and_shape
    (imresize : STensor Nat → Nat × Nat → STensor Nat)
    (hshape : ∀ x sz, (imresize x sz).shape = [sz.1, sz.2, x.shape.getLastD 0])
    (hval : ∀ x sz, ∀ v ∈ (imresize x sz).data, v ≤ 255) :
    (∀ (crop : STensor Nat → STensor Nat) (sz : Nat × Nat) (gs : Bool)
        (img : STensor Nat),
      ∀ v ∈ (PreprocessImage.observation crop imresize sz gs img).data,
        0 ≤ v ∧ v ≤ 1) ∧
    (∀ img : STensor Nat, img.shape.getLastD 0 = 3 →
      (PreprocessImage.observation id imresize (64, 64) true img).shape
        = [64, 64, 1]) := by
  constructor
  · intro crop sz gs img v hv
    rw [show (PreprocessImage.observation crop imresize sz gs img).data
        = (if gs then npMeanLast (imresize (crop img) sz)
           else ⟨(imresize (crop img) sz).shape,
                 (imresize (crop img) sz).data.map
                   (fun (v : Nat) => (v : Rat))⟩).data.map (fun v => v / 255) from rfl,
      List.mem_map] at hv
    obtain ⟨e, he, rfl⟩ := hv
    have hb : 0 ≤ e ∧ e ≤ 255 := by
      cases gs with
      | false =>
          have he' : e ∈ (imresize (crop img) sz).data.map (fun (v : Nat) => (v : Rat)) := he
          rw [List.mem_map] at he'
          obtain ⟨n, hn, rfl⟩ := he'
          have hn255 := hval (crop img) sz n hn
          exact ⟨by positivity, by exact_mod_cast hn255⟩
      | true =>
          have he' : e ∈ (npMeanLast (imresize (crop img) sz)).data := he
          rw [show (npMeanLast (imresize (crop img) sz)).data
              = (List.range (listProd (imresize (crop img) sz).shape.dropLast)).map
                  (fun j =>
                    (((List.range ((imresize (crop img) sz).shape.getLastD 0)).map
                        (fun k => (((imresize (crop img) sz).data.getD
                          (j * (imresize (crop img) sz).shape.getLastD 0 + k) 0 : Nat) : Rat))).sum)
                      / (((imresize (crop img) sz).shape.getLastD 0 : Nat) : Rat)) from rfl,
            List.mem_map] at he'
          obtain ⟨j, _, rfl⟩ := he'
          exact mean_entry_bounds (imresize (crop img) sz).data
            (hval (crop img) sz) _ j
    exact ⟨div_nonneg hb.1 (by norm_num), by rw [div_le_one (by norm_num)]; exact hb.2⟩
  · intro img h3
    show (npMeanLast (imresize (id img) (64, 64))).shape = [64, 64, 1]
    have hsh : (imresize (id img) (64, 64)).shape = [64, 64] ++ [3] := by
      rw [hshape]
      show [64, 64, img.shape.getLastD 0] = [64, 64] ++ [3]
      rw [h3]
      rfl
    rw [npMeanLast_shape_concat _ [64, 64] 3 hsh]
    rfl

/-- Concrete resize primitive for the C9 witness: returns a constant byte
image of the requested size, preserving the channel count. -/
def cImresize (x : STensor Nat) (sz : Nat × Nat) : STensor Nat :=
  ⟨[sz.1, sz.2, x.shape.getLastD 0],
   List.replicate (sz.1 * sz.2 * x.shape.getLastD 0) 7⟩

/-- A concrete 3-channel raw image for the C9 witness. -/
def cImg : STensor Nat := ⟨[2, 2, 3], [0, 50, 255, 1, 2, 3, 4, 5, 6, 7, 8, 9]⟩

theorem preprocessImage_range_and_shape_witness :
    ((∀ x sz, (cImresize x sz).shape = [sz.1, sz.2, x.shape.getLastD 0]) ∧
      (∀ x sz, ∀ v ∈ (cImresize x sz).data, v ≤ 255)) ∧
    (∀ v ∈ (PreprocessImage.observation id cImresize (2, 2) true cImg).data,
      0 ≤ v ∧ v ≤ 1) ∧
    (PreprocessImage.observation id cImresize (64, 64) true cImg).shape
      = [64, 64, 1] :=
  have hshape : ∀ x sz, (cImresize x sz).shape = [sz.1, sz.2, x.shape.getLastD 0] :=
    fun _ _ => rfl
  have hval : ∀ x sz, ∀ v ∈ (cImresize x sz).data, v ≤ 255 := fun x sz v hv => by
    have := List.eq_of_mem_replicate hv
    omega
  ⟨⟨hshape, hval⟩,
    (preprocessImage_range_and_shape cImresize hshape hval).1 id (2, 2) true cImg,
    (preprocessImage_range_and_shape cImresize hshape hval).2 cImg rfl⟩

/-- Address of a python object in a heap. -/
abbrev Addr := Nat

/-- A heap of mutable cells: python objects and numpy arrays live here and
addresses model object identity. `mem` is total; addresses at or beyond
`next` are unallocated garbage. -/
structure Heap (α : Type) where
  next : Nat
  mem : Nat → α

/-- Allocate a fresh cell holding `v`, returning the new heap and the fresh
address. -/
def Heap.alloc {α : Type} (h : Heap α) (v : α) : Heap α × Addr :=
  (⟨h.next + 1, fun a => if a = h.next then v else h.mem a⟩, h.next)

/-- Overwrite the cell at `a` in place. -/
def Heap.write {α : Type} (h : Heap α) (a : Addr) (v : α) : Heap α :=
  ⟨h.next, fun x => if x = a then v else h.mem x⟩

@[simp] theorem Heap.next_write {α : Type} (h : Heap α) (a : Addr) (v : α) :
    (h.write a v).next = h.next := rfl

@[simp] theorem Heap.mem_write_self {α : Type} (h : Heap α) (a : Addr) (v : α) :
    (h.write a v).mem a = v := by simp [Heap.write]

theorem Heap.mem_write_ne {α : Type} (h : Heap α) (a b : Addr) (v : α)
    (hne : b ≠ a) : (h.write a v).mem b = h.mem b := by
  simp [Heap.write, hne]

@[simp] theorem Heap.alloc_addr {α : Type} (h : Heap α) (v : α) :
    (h.alloc v).2 = h.next := rfl

@[simp] theorem Heap.next_alloc {α : Type} (h : Heap α) (v : α) :
    (h.alloc v).1.next = h.next + 1 := rfl

@[simp] theorem Heap.mem_alloc_self {α : Type} (h : Heap α) (v : α) :
    (h.alloc v).1.mem h.next = v := by simp [Heap.alloc]

theorem Heap.mem_alloc_lt {α : Type} (h : Heap α) (v : α) (b : Addr)
    (hb : b < h.next) : (h.alloc v).1.mem b = h.mem b := by
  have : b ≠ h.next := Nat.ne_of_lt hb
  simp [Heap.alloc, this]

/-- A python environment object: either a self-contained environment whose
whole state is held in its own attributes, or a `gym.Wrapper`-style object
whose `env` attribute references an inner environment object at another
heap address. Python's `copy.copy` duplicates the object but, being
shallow, keeps the same inner reference. -/
inductive EnvObj (S : Type) where
  | selfContained (s : S)
  | wrapperOf (inner : Addr)
deriving Repr, DecidableEq

/-- Dynamics of a self-contained environment: `reset0 s` is the state and
observation after `reset()`; `step0 s a` is the state, observation, reward
and done flag after `step(a)`. `zeroObs` is the zero observation used when
numpy allocates the zeroed batch-state array. -/
structure EnvDyn (S O A : Type) where
  reset0 : S → S × O
  step0 : S → A → S × O × Rat × Bool
  zeroObs : O

/-- `env.reset()` on the object at address `a`: a self-contained object
mutates its own state; a plain wrapper delegates to (and mutates) the inner
object its `env` attribute references. Chains of more than one wrapper are
not used by the claims; that branch returns the heap unchanged. -/
def envReset {S O A : Type} (dyn : EnvDyn S O A) (h : Heap (EnvObj S))
    (a : Addr) : Heap (EnvObj S) × O :=
  match h.mem a with
  | .selfContained s =>
      let p := dyn.reset0 s
      (h.write a (.selfContained p.1), p.2)
  | .wrapperOf inner =>
      match h.mem inner with
      | .selfContained s =>
          let p := dyn.reset0 s
          (h.write inner (.selfContained p.1), p.2)
      | .wrapperOf _ => (h, dyn.zeroObs)

/-- `env.step(action)` on the object at address `a`, mirroring `envReset`. -/
def envStep {S O A : Type} (dyn : EnvDyn S O A) (h : Heap (EnvObj S))
    (a : Addr) (action : A) : Heap (EnvObj S) × O × Rat × Bool :=
  match h.mem a with
  | .selfContained s =>
      let p := dyn.step0 s action
      (h.write a (.selfContained p.1), p.2.1, p.2.2.1, p.2.2.2)
  | .wrapperOf inner =>
      match h.mem inner with
      | .selfContained s =>
          let p := dyn.step0 s action
          (h.write inner (.selfContained p.1), p.2.1, p.2.2.1, p.2.2.2)
      | .wrapperOf _ => (h, dyn.zeroObs, 0, false)

/-- Mutable state of an `EnvPool` instance together with the heaps its
objects live in. The template `initial_env`, the slot objects in `envs`,
and the three numpy arrays `_states`, `_rewards`, `_dones` are heap cells;
the pool stores their addresses, matching python reference semantics. -/
structure PoolState (S O : Type) where
  envH : Heap (EnvObj S)
  obsH : Heap (List O)
  rewH : Heap (List Rat)
  doneH : Heap (List Bool)
  initial_env : Addr
  n_envs : Nat
  envs : List Addr
  statesA : Addr
  rewardsA : Addr
  donesA : Addr

namespace EnvPool

/-- `[copy(self.initial_env) for _ in range(self.n_envs)]`: allocate `n`
shallow copies of the object at `tmpl`, in order. -/
def allocCopies {S : Type} (h : Heap (EnvObj S)) (tmpl : Addr) :
    Nat → Heap (EnvObj S) × List Addr
  | 0 => (h, [])
  | n + 1 =>
      let p := h.alloc (h.mem tmpl)
      let q := allocCopies p.1 tmpl n
      (q.1, p.2 :: q.2)

/-- `EnvPool.close` (lines 124-126) calls `env.close()` on every slot;
releasing the underlying simulator resources has no observable effect in
this model. -/
def close {S O : Type} (p : PoolState S O) : PoolState S O := p

/-- `EnvPool.recreate_envs` (lines 100-102): close the old slots, then
rebuild `self.envs` as `n_envs` shallow copies of `self.initial_env`. -/
def recreate_envs {S O : Type} (p : PoolState S O) : PoolState S O :=
  let p0 := close p
  let q := allocCopies p0.envH p0.initial_env p0.n_envs
  { p0 with envH := q.1, envs := q.2 }

/-- The loop of `EnvPool.reset` (lines 108-109):
`for i, env in enumerate(self.envs): self._states[i] = env.reset()`. -/
def resetLoop {S O A : Type} (dyn : EnvDyn S O A) (sA : Addr) :
    Nat → List Addr → Heap (EnvObj S) → Heap (List O) →
      Heap (EnvObj S) × Heap (List O)
  | _, [], eh, oh => (eh, oh)
  | i, e :: rest, eh, oh =>
      let p := envReset dyn eh e
      resetLoop dyn sA (i + 1) rest p.1 (oh.write sA ((oh.mem sA).set i p.2))

/-- `EnvPool.reset` (lines 104-110): rebind `self._states`, `self._rewards`
and `self._dones` to freshly allocated zero arrays, reset every slot
environment storing its observation into `self._states`, and return
`self._states.copy()`. -/
def reset {S O A : Type} (dyn : EnvDyn S O A) (p : PoolState S O) :
    PoolState S O × Addr :=
  let a1 := p.obsH.alloc (List.replicate p.n_envs dyn.zeroObs)
  let a2 := p.rewH.alloc (List.replicate p.n_envs (0 : Rat))
  let a3 := p.doneH.alloc (List.replicate p.n_envs false)
  let lp := resetLoop dyn a1.2 0 p.envs p.envH a1.1
  let ret := lp.2.alloc (lp.2.mem a1.2)
  ({ p with envH := lp.1, obsH := ret.1, rewH := a2.1, doneH := a3.1,
            statesA := a1.2, rewardsA := a2.2, donesA := a3.2 }, ret.2)

/-- The loop of `EnvPool.step` (lines 114-121):
`for i, (action, env) in enumerate(zip(actions, self.envs))`, writing the
reward and done flag in place, and storing either the stepped observation
or, when done, the observation of an immediate `env.reset()`. -/
def stepLoop {S O A : Type} (dyn : EnvDyn S O A) (sA rA dA : Addr) :
    Nat → List (A × Addr) → Heap (EnvObj S) → Heap (List O) →
      Heap (List Rat) → Heap (List Bool) →
      Heap (EnvObj S) × Heap (List O) × Heap (List Rat) × Heap (List Bool)
  | _, [], eh, oh, rh, dh => (eh, oh, rh, dh)
  | i, (action, e) :: rest, eh, oh, rh, dh =>
      let q := envStep dyn eh e action
      let rh1 := rh.write rA ((rh.mem rA).set i q.2.2.1)
      let dh1 := dh.write dA ((dh.mem dA).set i q.2.2.2)
      if q.2.2.2 then
        let r := envReset dyn q.1 e
        stepLoop dyn sA rA dA (i + 1) rest r.1
          (oh.write sA ((oh.mem sA).set i r.2)) rh1 dh1
      else
        stepLoop dyn sA rA dA (i + 1) rest q.1
          (oh.write sA ((oh.mem sA).set i q.2.1)) rh1 dh1

/-- `EnvPool.step` (lines 112-122): run the per-slot loop over
`zip(actions, self.envs)` and return `self._states.copy()`,
`self._rewards.copy()`, `self._dones.copy()` and `None`. -/
def step {S O A : Type} (dyn : EnvDyn S O A) (p : PoolState S O)
    (actions : List A) : PoolState S O × Addr × Addr × Addr × Option Unit :=
  let lp := stepLoop dyn p.statesA p.rewardsA p.donesA 0
              (actions.zip p.envs) p.envH p.obsH p.rewH p.doneH
  let cS := lp.2.1.alloc (lp.2.1.mem p.statesA)
  let cR := lp.2.2.1.alloc (lp.2.2.1.mem p.rewardsA)
  let cD := lp.2.2.2.alloc (lp.2.2.2.mem p.donesA)
  ({ p with envH := lp.1, obsH := cS.1, rewH := cR.1, doneH := cD.1 },
   cS.2, cR.2, cD.2, none)

/-- `EnvPool.pool_states` (lines 128-129): `return self._states.copy()`. -/
def pool_states {S O : Type} (p : PoolState S O) : PoolState S O × Addr :=
  let c := p.obsH.alloc (p.obsH.mem p.statesA)
  ({ p with obsH := c.1 }, c.2)

/-- `EnvPool.__init__` (lines 91-98): store the template and the slot
count, start with `self.envs = []`, call `recreate_envs()` (which itself
first calls `close()`) and then `reset()`. The three array addresses are
dummies until `reset()` rebinds them. -/
def init {S O A : Type} (dyn : EnvDyn S O A) (envH0 : Heap (EnvObj S))
    (obsH0 : Heap (List O)) (rewH0 : Heap (List Rat))
    (doneH0 : Heap (List Bool)) (tmpl : Addr) (n : Nat) : PoolState S O :=
  let p0 : PoolState S O :=
    { envH := envH0, obsH := obsH0, rewH := rewH0, doneH := doneH0,
      initial_env := tmpl, n_envs := n, envs := [],
      statesA := 0, rewardsA := 0, donesA := 0 }
  (reset dyn (recreate_envs p0)).1

end EnvPool

/-- The environment heap after the pool's step loop has processed a prefix
of the `(action, slot)` pairs, including the auto-reset of any slot that
reported done. -/
def heapAfterSlots {S O A : Type} (dyn : EnvDyn S O A) :
    Heap (EnvObj S) → List (A × Addr) → Heap (EnvObj S)
  | eh, [] => eh
  | eh, (action, e) :: rest =>
      let q := envStep dyn eh e action
      heapAfterSlots dyn (if q.2.2.2 then (envReset dyn q.1 e).1 else q.1) rest

/-- The environment heap after the pool's reset loop has reset a prefix of
the slots. -/
def heapAfterResets {S O A : Type} (dyn : EnvDyn S O A) :
    Heap (EnvObj S) → List Addr → Heap (EnvObj S)
  | eh, [] => eh
  | eh, e :: rest => heapAfterResets dyn (envReset dyn eh e).1 rest

theorem getD_set_self {α : Type} (l : List α) (i : Nat) (v d : α)
    (h : i < l.length) : (l.set i v).getD i d = v := by
  simp [List.getD_eq_getElem?_getD, List.getElem?_set_self', h]

theorem getD_set_ne {α : Type} (l : List α) (i j : Nat) (v d : α)
    (h : i ≠ j) : (l.set i v).getD j d = l.getD j d := by
  simp [List.getD_eq_getElem?_getD, List.getElem?_set_ne h]

/-- Frame conditions of the pool's step loop: it only writes the three
batch-array cells, allocates nothing, and preserves the array lengths. -/
def LoopFrames {S O : Type} (sA rA dA : Addr)
    (res : Heap (EnvObj S) × Heap (List O) × Heap (List Rat) × Heap (List Bool))
    (oh : Heap (List O)) (rh : Heap (List Rat)) (dh : Heap (List Bool)) : Prop :=
  (∀ b, b ≠ sA → (res.2.1).mem b = oh.mem b) ∧
  (∀ b, b ≠ rA → (res.2.2.1).mem b = rh.mem b) ∧
  (∀ b, b ≠ dA → (res.2.2.2).mem b = dh.mem b) ∧
  (res.2.1).next = oh.next ∧ (res.2.2.1).next = rh.next ∧ (res.2.2.2).next = dh.next ∧
  ((res.2.1).mem sA).length = (oh.mem sA).length ∧
  ((res.2.2.1).mem rA).length = (rh.mem rA).length ∧
  ((res.2.2.2).mem dA).length = (dh.mem dA).length

theorem LoopFrames_write {S O : Type} (sA rA dA : Addr)
    (res : Heap (EnvObj S) × Heap (List O) × Heap (List Rat) × Heap (List Bool))
    (oh : Heap (List O)) (rh : Heap (List Rat)) (dh : Heap (List Bool))
    (i : Nat) (vO : O) (vR : Rat) (vB : Bool)
    (h : LoopFrames sA rA dA res (oh.write sA ((oh.mem sA).set i vO))
          (rh.write rA ((rh.mem rA).set i vR)) (dh.write dA ((dh.mem dA).set i vB))) :
    LoopFrames sA rA dA res oh rh dh := by
  obtain ⟨h1, h2, h3, h4, h5, h6, h7, h8, h9⟩ := h
  refine ⟨fun b hb => (h1 b hb).trans (Heap.mem_write_ne _ _ _ _ hb),
          fun b hb => (h2 b hb).trans (Heap.mem_write_ne _ _ _ _ hb),
          fun b hb => (h3 b hb).trans (Heap.mem_write_ne _ _ _ _ hb),
          h4, h5, h6, h7.trans ?_, h8.trans ?_, h9.trans ?_⟩ <;>
    rw [Heap.mem_write_self, List.length_set]

theorem stepLoop_frames {S O A : Type} (dyn : EnvDyn S O A) (sA rA dA : Addr)
    (pairs : List (A × Addr)) :
    ∀ (i0 : Nat) (eh : Heap (EnvObj S)) (oh : Heap (List O))
      (rh : Heap (List Rat)) (dh : Heap (List Bool)),
      LoopFrames sA rA dA (EnvPool.stepLoop dyn sA rA dA i0 pairs eh oh rh dh) oh rh dh := by
  induction pairs with
  | nil =>
      intro i0 eh oh rh dh
      exact ⟨fun b _ => rfl, fun b _ => rfl, fun b _ => rfl, rfl, rfl, rfl, rfl, rfl, rfl⟩
  | cons pr rest ih =>
      intro i0 eh oh rh dh
      obtain ⟨action, e⟩ := pr
      simp only [EnvPool.stepLoop]
      split
      · exact LoopFrames_write sA rA dA _ oh rh dh i0 _ _ _ (ih _ _ _ _ _)
      · exact LoopFrames_write sA rA dA _ oh rh dh i0 _ _ _ (ih _ _ _ _ _)

/-- Entries of the batch arrays outside the index range a loop run touches
are left unchanged. -/
def LoopUntouched {S O : Type} (sA rA dA : Addr)
    (res : Heap (EnvObj S) × Heap (List O) × Heap (List Rat) × Heap (List Bool))
    (oh : Heap (List O)) (rh : Heap (List Rat)) (dh : Heap (List Bool)) (j : Nat) : Prop :=
  ∀ (dO : O) (dR : Rat) (dB : Bool),
    (((res.2.1).mem sA).getD j dO = (oh.mem sA).getD j dO) ∧
    (((res.2.2.1).mem rA).getD j dR = (rh.mem rA).getD j dR) ∧
    (((res.2.2.2).mem dA).getD j dB = (dh.mem dA).getD j dB)

theorem LoopUntouched_write {S O : Type} (sA rA dA : Addr)
    (res : Heap (EnvObj S) × Heap (List O) × Heap (List Rat) × Heap (List Bool))
    (oh : Heap (List O)) (rh : Heap (List Rat)) (dh : Heap (List Bool))
    (i j : Nat) (hne : i ≠ j) (vO : O) (vR : Rat) (vB : Bool)
    (h : LoopUntouched sA rA dA res (oh.write sA ((oh.mem sA).set i vO))
          (rh.write rA ((rh.mem rA).set i vR)) (dh.write dA ((dh.mem dA).set i vB)) j) :
    LoopUntouched sA rA dA res oh rh dh j := by
  intro dO dR dB
  obtain ⟨h1, h2, h3⟩ := h dO dR dB
  refine ⟨h1.trans ?_, h2.trans ?_, h3.trans ?_⟩ <;>
    rw [Heap.mem_write_self, getD_set_ne _ _ _ _ _ hne]

theorem stepLoop_untouched {S O A : Type} (dyn : EnvDyn S O A) (sA rA dA : Addr)
    (pairs : List (A × Addr)) :
    ∀ (i0 : Nat) (eh : Heap (EnvObj S)) (oh : Heap (List O))
      (rh : Heap (List Rat)) (dh : Heap (List Bool)) (j : Nat),
      (j < i0 ∨ i0 + pairs.length ≤ j) →
      LoopUntouched sA rA dA (EnvPool.stepLoop dyn sA rA dA i0 pairs eh oh rh dh)
        oh rh dh j := by
  induction pairs with
  | nil =>
      intro i0 eh oh rh dh j hj
      exact fun dO dR dB => ⟨rfl, rfl, rfl⟩
  | cons pr rest ih =>
      intro i0 eh oh rh dh j hj
      obtain ⟨action, e⟩ := pr
      simp only [List.length_cons] at hj
      have hne : i0 ≠ j := by omega
      have hj' : j < i0 + 1 ∨ i0 + 1 + rest.length ≤ j := by omega
      simp only [EnvPool.stepLoop]
      split
      · exact LoopUntouched_write sA rA dA _ oh rh dh i0 j hne _ _ _ (ih _ _ _ _ _ _ hj')
      · exact LoopUntouched_write sA rA dA _ oh rh dh i0 j hne _ _ _ (ih _ _ _ _ _ _ hj')

theorem stepLoop_envH {S O A : Type} (dyn : EnvDyn S O A) (sA rA dA : Addr)
    (pairs : List (A × Addr)) :
    ∀ (i0 : Nat) (eh : Heap (EnvObj S)) (oh : Heap (List O))
      (rh : Heap (List Rat)) (dh : Heap (List Bool)),
      (EnvPool.stepLoop dyn sA rA dA i0 pairs eh oh rh dh).1
        = heapAfterSlots dyn eh pairs := by
  induction pairs with
  | nil => intro i0 eh oh rh dh; rfl
  | cons pr rest ih =>
      intro i0 eh oh rh dh
      obtain ⟨action, e⟩ := pr
      simp only [EnvPool.stepLoop, heapAfterSlots]
      split
      · exact ih _ _ _ _ _
      · exact ih _ _ _ _ _

/-- Per-slot characterisation of the pool's step loop: slot `j`'s recorded
reward and done flag are those returned by its `env.step`, run against the
environment heap left by the previous slots; the stored observation is the
stepped one, or the observation of the immediate `env.reset()` when the
step reported done. -/
theorem stepLoop_spec {S O A : Type} (dyn : EnvDyn S O A) (sA rA dA : Addr)
    (pairs : List (A × Addr)) :
    ∀ (i0 : Nat) (eh : Heap (EnvObj S)) (oh : Heap (List O))
      (rh : Heap (List Rat)) (dh : Heap (List Bool)),
      i0 + pairs.length ≤ (oh.mem sA).length →
      i0 + pairs.length ≤ (rh.mem rA).length →
      i0 + pairs.length ≤ (dh.mem dA).length →
      ∀ (j : Nat) (hj : j < pairs.length) (dO : O) (dR : Rat) (dB : Bool),
      ((((EnvPool.stepLoop dyn sA rA dA i0 pairs eh oh rh dh).2.2.1).mem rA).getD (i0 + j) dR
        = (envStep dyn (heapAfterSlots dyn eh (pairs.take j))
            (pairs.get ⟨j, hj⟩).2 (pairs.get ⟨j, hj⟩).1).2.2.1) ∧
      ((((EnvPool.stepLoop dyn sA rA dA i0 pairs eh oh rh dh).2.2.2).mem dA).getD (i0 + j) dB
        = (envStep dyn (heapAfterSlots dyn eh (pairs.take j))
            (pairs.get ⟨j, hj⟩).2 (pairs.get ⟨j, hj⟩).1).2.2.2) ∧
      ((((EnvPool.stepLoop dyn sA rA dA i0 pairs eh oh rh dh).2.1).mem sA).getD (i0 + j) dO
        = (if (envStep dyn (heapAfterSlots dyn eh (pairs.take j))
                (pairs.get ⟨j, hj⟩).2 (pairs.get ⟨j, hj⟩).1).2.2.2
           then (envReset dyn
                  (envStep dyn (heapAfterSlots dyn eh (pairs.take j))
                    (pairs.get ⟨j, hj⟩).2 (pairs.get ⟨j, hj⟩).1).1
                  (pairs.get ⟨j, hj⟩).2).2
           else (envStep dyn (heapAfterSlots dyn eh (pairs.take j))
                  (pairs.get ⟨j, hj⟩).2 (pairs.get ⟨j, hj⟩).1).2.1)) := by
  induction pairs with
  | nil =>
      intro i0 eh oh rh dh hLs hLr hLd j hj
      exact absurd hj (by simp)
  | cons pr rest ih =>
      intro i0 eh oh rh dh hLs hLr hLd j hj dO dR dB
      obtain ⟨action, e⟩ := pr
      simp only [List.length_cons] at hLs hLr hLd
      cases j with
      | zero =>
          have hget : ((action, e) :: rest).get ⟨0, hj⟩ = (action, e) := rfl
          have htake : ((action, e) :: rest).take 0 = [] := rfl
          rw [hget, htake]
          simp only [heapAfterSlots, Nat.add_zero]
          simp only [EnvPool.stepLoop]
          by_cases hd : (envStep dyn eh e action).2.2.2 = true
          · rw [if_pos hd, if_pos hd]
            have hu := stepLoop_untouched dyn sA rA dA rest (i0 + 1)
              (envReset dyn (envStep dyn eh e action).1 e).1
              (oh.write sA ((oh.mem sA).set i0 (envReset dyn (envStep dyn eh e action).1 e).2))
              (rh.write rA ((rh.mem rA).set i0 (envStep dyn eh e action).2.2.1))
              (dh.write dA ((dh.mem dA).set i0 (envStep dyn eh e action).2.2.2)) i0
              (Or.inl (Nat.lt_succ_self i0)) dO dR dB
            refine ⟨hu.2.1.trans ?_, hu.2.2.trans ?_, hu.1.trans ?_⟩ <;>
              · rw [Heap.mem_write_self]
                apply getD_set_self
                omega
          · rw [if_neg hd, if_neg hd]
            have hu := stepLoop_untouched dyn sA rA dA rest (i0 + 1)
              (envStep dyn eh e action).1
              (oh.write sA ((oh.mem sA).set i0 (envStep dyn eh e action).2.1))
              (rh.write rA ((rh.mem rA).set i0 (envStep dyn eh e action).2.2.1))
              (dh.write dA ((dh.mem dA).set i0 (envStep dyn eh e action).2.2.2)) i0
              (Or.inl (Nat.lt_succ_self i0)) dO dR dB
            refine ⟨hu.2.1.trans ?_, hu.2.2.trans ?_, hu.1.trans ?_⟩ <;>
              · rw [Heap.mem_write_self]
                apply getD_set_self
                omega
      | succ j' =>
          have hjr : j' < rest.length := Nat.lt_of_succ_lt_succ hj
          have hget : ((action, e) :: rest).get ⟨j' + 1, hj⟩ = rest.get ⟨j', hjr⟩ := rfl
          have htake : ((action, e) :: rest).take (j' + 1) = (action, e) :: rest.take j' := rfl
          rw [hget, htake]
          simp only [heapAfterSlots]
          have hidx : i0 + (j' + 1) = i0 + 1 + j' := by omega
          rw [hidx]
          simp only [EnvPool.stepLoop]
          by_cases hd : (envStep dyn eh e action).2.2.2 = true
          · rw [if_pos hd, if_pos hd]
            refine ih (i0 + 1) _ _ _ _ ?_ ?_ ?_ j' hjr dO dR dB <;>
              · rw [Heap.mem_write_self, List.length_set]
                omega
          · rw [if_neg hd, if_neg hd]
            refine ih (i0 + 1) _ _ _ _ ?_ ?_ ?_ j' hjr dO dR dB <;>
              · rw [Heap.mem_write_self, List.length_set]
                omega

/-- Frame conditions of the pool's reset loop: it only writes the states
cell, allocates nothing, and preserves the array length. -/
def ResetFrames {S O : Type} (sA : Addr)
    (res : Heap (EnvObj S) × Heap (List O)) (oh : Heap (List O)) : Prop :=
  (∀ b, b ≠ sA → (res.2).mem b = oh.mem b) ∧
  (res.2).next = oh.next ∧
  ((res.2).mem sA).length = (oh.mem sA).length

theorem ResetFrames_write {S O : Type} (sA : Addr)
    (res : Heap (EnvObj S) × Heap (List O)) (oh : Heap (List O))
    (i : Nat) (vO : O)
    (h : ResetFrames sA res (oh.write sA ((oh.mem sA).set i vO))) :
    ResetFrames sA res oh := by
  obtain ⟨h1, h2, h3⟩ := h
  refine ⟨fun b hb => (h1 b hb).trans (Heap.mem_write_ne _ _ _ _ hb), h2,
    h3.trans ?_⟩
  rw [Heap.mem_write_self, List.length_set]

theorem resetLoop_frames {S O A : Type} (dyn : EnvDyn S O A) (sA : Addr)
    (addrs : List Addr) :
    ∀ (i0 : Nat) (eh : Heap (EnvObj S)) (oh : Heap (List O)),
      ResetFrames sA (EnvPool.resetLoop dyn sA i0 addrs eh oh) oh := by
  induction addrs with
  | nil => intro i0 eh oh; exact ⟨fun b _ => rfl, rfl, rfl⟩
  | cons e rest ih =>
      intro i0 eh oh
      simp only [EnvPool.resetLoop]
      exact ResetFrames_write sA _ oh i0 _ (ih _ _ _)

theorem resetLoop_untouched {S O A : Type} (dyn : EnvDyn S O A) (sA : Addr)
    (addrs : List Addr) :
    ∀ (i0 : Nat) (eh : Heap (EnvObj S)) (oh : Heap (List O)) (j : Nat),
      (j < i0 ∨ i0 + addrs.length ≤ j) → ∀ (dO : O),
      (((EnvPool.resetLoop dyn sA i0 addrs eh oh).2).mem sA).getD j dO
        = (oh.mem sA).getD j dO := by
  induction addrs with
  | nil => intro i0 eh oh j hj dO; rfl
  | cons e rest ih =>
      intro i0 eh oh j hj dO
      simp only [List.length_cons] at hj
      have hne : i0 ≠ j := by omega
      have hj' : j < i0 + 1 ∨ i0 + 1 + rest.length ≤ j := by omega
      simp only [EnvPool.resetLoop]
      refine (ih (i0 + 1) _ _ j hj' dO).trans ?_
      rw [Heap.mem_write_self, getD_set_ne _ _ _ _ _ hne]

theorem resetLoop_envH {S O A : Type} (dyn : EnvDyn S O A) (sA : Addr)
    (addrs : List Addr) :
    ∀ (i0 : Nat) (eh : Heap (EnvObj S)) (oh : Heap (List O)),
      (EnvPool.resetLoop dyn sA i0 addrs eh oh).1 = heapAfterResets dyn eh addrs := by
  induction addrs with
  | nil => intro i0 eh oh; rfl
  | cons e rest ih =>
      intro i0 eh oh
      simp only [EnvPool.resetLoop, heapAfterResets]
      exact ih _ _ _

/-- Per-slot characterisation of the pool's reset loop: slot `j`'s stored
observation is the one returned by its `env.reset()`, run against the
environment heap left by the previous slots. -/
theorem resetLoop_spec {S O A : Type} (dyn : EnvDyn S O A) (sA : Addr)
    (addrs : List Addr) :
    ∀ (i0 : Nat) (eh : Heap (EnvObj S)) (oh : Heap (List O)),
      i0 + addrs.length ≤ (oh.mem sA).length →
      ∀ (j : Nat) (hj : j < addrs.length) (dO : O),
      (((EnvPool.resetLoop dyn sA i0 addrs eh oh).2).mem sA).getD (i0 + j) dO
        = (envReset dyn (heapAfterResets dyn eh (addrs.take j)) (addrs.get ⟨j, hj⟩)).2 := by
  induction addrs with
  | nil =>
      intro i0 eh oh hL j hj
      exact absurd hj (by simp)
  | cons e rest ih =>
      intro i0 eh oh hL j hj dO
      simp only [List.length_cons] at hL
      cases j with
      | zero =>
          have hget : (e :: rest).get ⟨0, hj⟩ = e := rfl
          have htake : (e :: rest).take 0 = [] := rfl
          rw [hget, htake]
          simp only [heapAfterResets, Nat.add_zero]
          simp only [EnvPool.resetLoop]
          refine (resetLoop_untouched dyn sA rest (i0 + 1) (envReset dyn eh e).1
            (oh.write sA ((oh.mem sA).set i0 (envReset dyn eh e).2)) i0
            (Or.inl (Nat.lt_succ_self i0)) dO).trans ?_
          rw [Heap.mem_write_self]
          apply getD_set_self
          omega
      | succ j' =>
          have hjr : j' < rest.length := Nat.lt_of_succ_lt_succ hj
          have hget : (e :: rest).get ⟨j' + 1, hj⟩ = rest.get ⟨j', hjr⟩ := rfl
          have htake : (e :: rest).take (j' + 1) = e :: rest.take j' := rfl
          rw [hget, htake]
          simp only [heapAfterResets]
          have hidx : i0 + (j' + 1) = i0 + 1 + j' := by omega
          rw [hidx]
          simp only [EnvPool.resetLoop]
          refine ih (i0 + 1) _ _ ?_ j' hjr dO
          rw [Heap.mem_write_self, List.length_set]
          omega

/-- Shallow copying in `recreate_envs`: the `n` new slot objects live at
the fresh consecutive addresses, each holding the template object's value
(in particular, sharing any inner reference the template holds). -/
theorem allocCopies_spec {S : Type} :
    ∀ (n : Nat) (h : Heap (EnvObj S)) (tmpl : Addr), tmpl < h.next →
      (EnvPool.allocCopies h tmpl n).2 = List.range' h.next n ∧
      (EnvPool.allocCopies h tmpl n).1.next = h.next + n ∧
      (∀ b, b < h.next → (EnvPool.allocCopies h tmpl n).1.mem b = h.mem b) ∧
      (∀ a ∈ List.range' h.next n, (EnvPool.allocCopies h tmpl n).1.mem a = h.mem tmpl) := by
  intro n
  induction n with
  | zero =>
      intro h tmpl htm
      exact ⟨rfl, rfl, fun b _ => rfl, fun a ha => absurd ha (by simp)⟩
  | succ m ih =>
      intro h tmpl htm
      have htm' : tmpl < (h.alloc (h.mem tmpl)).1.next :=
        Nat.lt_succ_of_lt htm
      obtain ⟨ih1, ih2, ih3, ih4⟩ := ih (h.alloc (h.mem tmpl)).1 tmpl htm'
      have hrange : List.range' h.next (m + 1) = h.next :: List.range' (h.next + 1) m :=
        List.range'_succ h.next m 1
      refine ⟨?_, ?_, ?_, ?_⟩
      · show (h.alloc (h.mem tmpl)).2 :: (EnvPool.allocCopies (h.alloc (h.mem tmpl)).1 tmpl m).2
          = List.range' h.next (m + 1)
        rw [hrange, ih1]
        simp
      · show (EnvPool.allocCopies (h.alloc (h.mem tmpl)).1 tmpl m).1.next = h.next + (m + 1)
        rw [ih2]
        simp only [Heap.next_alloc]
        omega
      · intro b hb
        show (EnvPool.allocCopies (h.alloc (h.mem tmpl)).1 tmpl m).1.mem b = h.mem b
        rw [ih3 b (Nat.lt_succ_of_lt hb)]
        exact Heap.mem_alloc_lt h _ b hb
      · intro a ha
        rw [hrange] at ha
        show (EnvPool.allocCopies (h.alloc (h.mem tmpl)).1 tmpl m).1.mem a = h.mem tmpl
        rcases List.mem_cons.mp ha with rfl | ha
        · rw [ih3 h.next (Nat.lt_succ_self _)]
          exact Heap.mem_alloc_self h _
        · rw [ih4 a (by simpa using ha)]
          exact Heap.mem_alloc_lt h _ tmpl htm

theorem heapAfterResets_preserves {S O A : Type} (dyn : EnvDyn S O A) :
    ∀ (addrs : List Addr) (eh : Heap (EnvObj S)) (b : Addr),
      b ∉ addrs → (∀ a ∈ addrs, ∃ s, eh.mem a = EnvObj.selfContained s) →
      (heapAfterResets dyn eh addrs).mem b = eh.mem b := by
  intro addrs
  induction addrs with
  | nil => intro eh b _ _; rfl
  | cons e rest ih =>
      intro eh b hb hcells
      obtain ⟨s, hs⟩ := hcells e (List.mem_cons_self _ _)
      have hstep : (envReset dyn eh e).1
          = eh.write e (EnvObj.selfContained (dyn.reset0 s).1) := by
        simp only [envReset, hs]
      have hbe : b ≠ e := fun hbe => hb (hbe ▸ List.mem_cons_self _ _)
      have hbr : b ∉ rest := fun hbr => hb (List.mem_cons_of_mem _ hbr)
      simp only [heapAfterResets]
      rw [hstep]
      rw [ih (eh.write e (EnvObj.selfContained (dyn.reset0 s).1)) b hbr ?_]
      · exact Heap.mem_write_ne _ _ _ _ hbe
      · intro x hx
        by_cases hxe : x = e
        · exact ⟨(dyn.reset0 s).1, by rw [hxe, Heap.mem_write_self]⟩
        · obtain ⟨sx, hsx⟩ := hcells x (List.mem_cons_of_mem _ hx)
          exact ⟨sx, by rw [Heap.mem_write_ne _ _ _ _ hxe]; exact hsx⟩

theorem heapAfterResets_cells {S O A : Type} (dyn : EnvDyn S O A) :
    ∀ (addrs : List Addr) (eh : Heap (EnvObj S)) (s0 : S),
      addrs.Nodup → (∀ a ∈ addrs, eh.mem a = EnvObj.selfContained s0) →
      ∀ a ∈ addrs, (heapAfterResets dyn eh addrs).mem a
        = EnvObj.selfContained (dyn.reset0 s0).1 := by
  intro addrs
  induction addrs with
  | nil => intro eh s0 _ _ a ha; exact absurd ha (by simp)
  | cons e rest ih =>
      intro eh s0 hnd hcells a ha
      obtain ⟨her, hndr⟩ := List.nodup_cons.mp hnd
      have hs : eh.mem e = EnvObj.selfContained s0 := hcells e (List.mem_cons_self _ _)
      have hstep : (envReset dyn eh e).1
          = eh.write e (EnvObj.selfContained (dyn.reset0 s0).1) := by
        simp only [envReset, hs]
      simp only [heapAfterResets]
      rw [hstep]
      rcases List.mem_cons.mp ha with hae | ha'
      · subst hae
        rw [heapAfterResets_preserves dyn rest _ a her ?_]
        · exact Heap.mem_write_self _ _ _
        · intro x hx
          have hxe : x ≠ a := fun hxa => her (hxa ▸ hx)
          exact ⟨s0, by
            rw [Heap.mem_write_ne _ _ _ _ hxe]
            exact hcells x (List.mem_cons_of_mem _ hx)⟩
      · refine ih _ s0 hndr ?_ a ha'
        intro x hx
        have hxe : x ≠ e := fun hxa => her (hxa ▸ hx)
        rw [Heap.mem_write_ne _ _ _ _ hxe]
        exact hcells x (List.mem_cons_of_mem _ hx)

/-- Well-formedness of a pool state: the three batch arrays are allocated
cells of the declared batch length, and there are as many slots as
declared. Holds after construction and is preserved by the pool
operations. -/
def WFPool {S O : Type} (p : PoolState S O) : Prop :=
  p.statesA < p.obsH.next ∧ p.rewardsA < p.rewH.next ∧ p.donesA < p.doneH.next ∧
  (p.obsH.mem p.statesA).length = p.n_envs ∧
  (p.rewH.mem p.rewardsA).length = p.n_envs ∧
  (p.doneH.mem p.donesA).length = p.n_envs ∧
  p.envs.length = p.n_envs

/-- The arrays returned by `EnvPool.step` are fresh cells whose contents
are the post-loop contents of the three internal arrays. -/
theorem step_components {S O A : Type} (dyn : EnvDyn S O A) (p : PoolState S O)
    (actions : List A) :
    ((EnvPool.step dyn p actions).1.obsH.mem (EnvPool.step dyn p actions).2.1
      = (EnvPool.stepLoop dyn p.statesA p.rewardsA p.donesA 0 (actions.zip p.envs)
          p.envH p.obsH p.rewH p.doneH).2.1.mem p.statesA) ∧
    ((EnvPool.step dyn p actions).1.rewH.mem (EnvPool.step dyn p actions).2.2.1
      = (EnvPool.stepLoop dyn p.statesA p.rewardsA p.donesA 0 (actions.zip p.envs)
          p.envH p.obsH p.rewH p.doneH).2.2.1.mem p.rewardsA) ∧
    ((EnvPool.step dyn p actions).1.doneH.mem (EnvPool.step dyn p actions).2.2.2.1
      = (EnvPool.stepLoop dyn p.statesA p.rewardsA p.donesA 0 (actions.zip p.envs)
          p.envH p.obsH p.rewH p.doneH).2.2.2.mem p.donesA) :=
  ⟨Heap.mem_alloc_self _ _, Heap.mem_alloc_self _ _, Heap.mem_alloc_self _ _⟩

/-- Claim C1: in `EnvPool.step`, slot `i`'s returned reward and done flag
are exactly those of that slot's terminal transition, while the stored and
returned observation is the stepped observation when `done = false` and,
when `done = true`, the observation of the immediately following
`env.reset()` of that slot (the stepped observation is discarded). -/
theorem envPool_step_autoreset {S O A : Type} (dyn : EnvDyn S O A)
    (p : PoolState S O) (actions : List A) (hwf : WFPool p)
    (i : Nat) (hi : i < (actions.zip p.envs).length) :
    (((EnvPool.step dyn p actions).1.rewH.mem (EnvPool.step dyn p actions).2.2.1).getD i 0
      = (envStep dyn (heapAfterSlots dyn p.envH ((actions.zip p.envs).take i))
          ((actions.zip p.envs).get ⟨i, hi⟩).2 ((actions.zip p.envs).get ⟨i, hi⟩).1).2.2.1) ∧
    (((EnvPool.step dyn p actions).1.doneH.mem
        (EnvPool.step dyn p actions).2.2.2.1).getD i false
      = (envStep dyn (heapAfterSlots dyn p.envH ((actions.zip p.envs).take i))
          ((actions.zip p.envs).get ⟨i, hi⟩).2 ((actions.zip p.envs).get ⟨i, hi⟩).1).2.2.2) ∧
    (((EnvPool.step dyn p actions).1.obsH.mem
        (EnvPool.step dyn p actions).2.1).getD i dyn.zeroObs
      = (if (envStep dyn (heapAfterSlots dyn p.envH ((actions.zip p.envs).take i))
            ((actions.zip p.envs).get ⟨i, hi⟩).2 ((actions.zip p.envs).get ⟨i, hi⟩).1).2.2.2
         then (envReset dyn
                (envStep dyn (heapAfterSlots dyn p.envH ((actions.zip p.envs).take i))
                  ((actions.zip p.envs).get ⟨i, hi⟩).2
                  ((actions.zip p.envs).get ⟨i, hi⟩).1).1
                ((actions.zip p.envs).get ⟨i, hi⟩).2).2
         else (envStep dyn (heapAfterSlots dyn p.envH ((actions.zip p.envs).take i))
                ((actions.zip p.envs).get ⟨i, hi⟩).2
                ((actions.zip p.envs).get ⟨i, hi⟩).1).2.1)) := by
  obtain ⟨h1, h2, h3, h4, h5, h6, h7⟩ := hwf
  have hzip : (actions.zip p.envs).length ≤ p.n_envs := by
    rw [List.length_zip]
    exact le_trans (Nat.min_le_right _ _) (le_of_eq h7)
  have hspec := stepLoop_spec dyn p.statesA p.rewardsA p.donesA (actions.zip p.envs)
    0 p.envH p.obsH p.rewH p.doneH
    (by rw [Nat.zero_add, h4]; exact hzip)
    (by rw [Nat.zero_add, h5]; exact hzip)
    (by rw [Nat.zero_add, h6]; exact hzip)
    i hi dyn.zeroObs 0 false
  simp only [Nat.zero_add] at hspec
  obtain ⟨hc1, hc2, hc3⟩ := step_components dyn p actions
  rw [hc1, hc2, hc3]
  exact ⟨hspec.1, hspec.2.1, hspec.2.2⟩

/-- Claim C2 (amended): `EnvPool.step` never rejects a mismatched action
batch. `zip(actions, self.envs)` silently truncates to the shorter of the
two: only the first `min |actions| N` slots are stepped, the returned
arrays still have length `n_envs`, and the entries of the unstepped slots
keep their previous values. -/
theorem envPool_step_truncation {S O A : Type} (dyn : EnvDyn S O A)
    (p : PoolState S O) (actions : List A) (hwf : WFPool p) :
    (((EnvPool.step dyn p actions).1.obsH.mem (EnvPool.step dyn p actions).2.1).length
      = p.n_envs) ∧
    (((EnvPool.step dyn p actions).1.rewH.mem (EnvPool.step dyn p actions).2.2.1).length
      = p.n_envs) ∧
    (((EnvPool.step dyn p actions).1.doneH.mem
        (EnvPool.step dyn p actions).2.2.2.1).length = p.n_envs) ∧
    ∀ i, (actions.zip p.envs).length ≤ i →
      (((EnvPool.step dyn p actions).1.obsH.mem
          (EnvPool.step dyn p actions).2.1).getD i dyn.zeroObs
        = (p.obsH.mem p.statesA).getD i dyn.zeroObs) ∧
      (((EnvPool.step dyn p actions).1.rewH.mem
          (EnvPool.step dyn p actions).2.2.1).getD i 0
        = (p.rewH.mem p.rewardsA).getD i 0) ∧
      (((EnvPool.step dyn p actions).1.doneH.mem
          (EnvPool.step dyn p actions).2.2.2.1).getD i false
        = (p.doneH.mem p.donesA).getD i false) := by
  obtain ⟨hc1, hc2, hc3⟩ := step_components dyn p actions
  have hf := stepLoop_frames dyn p.statesA p.rewardsA p.donesA (actions.zip p.envs)
    0 p.envH p.obsH p.rewH p.doneH
  refine ⟨?_, ?_, ?_, ?_⟩
  · rw [hc1, hf.2.2.2.2.2.2.1, hwf.2.2.2.1]
  · rw [hc2, hf.2.2.2.2.2.2.2.1, hwf.2.2.2.2.1]
  · rw [hc3, hf.2.2.2.2.2.2.2.2, hwf.2.2.2.2.2.1]
  · intro i hi
    have hu := stepLoop_untouched dyn p.statesA p.rewardsA p.donesA (actions.zip p.envs)
      0 p.envH p.obsH p.rewH p.doneH i (Or.inr (by rw [Nat.zero_add]; exact hi))
      dyn.zeroObs 0 false
    rw [hc1, hc2, hc3]
    exact ⟨hu.1, hu.2.1, hu.2.2⟩

/-- Empty heaps for the arrays of the concrete pools below. -/
def emptyObsH : Heap (List Nat) := ⟨0, fun _ => []⟩

def emptyRewH : Heap (List Rat) := ⟨0, fun _ => []⟩

def emptyDoneH : Heap (List Bool) := ⟨0, fun _ => []⟩

/-- A self-contained counting environment: `reset` zeroes the counter and
observes 0; `step` increments it and observes the new counter, with reward
7 and `done = false`. -/
def cDynStep : EnvDyn Nat Nat Unit where
  reset0 := fun _ => (0, 0)
  step0 := fun s _ => (s + 1, s + 1, 7, false)
  zeroObs := 0

/-- Like `cDynStep` but every step reports `done = true`. -/
def cDynDone : EnvDyn Nat Nat Unit where
  reset0 := fun _ => (0, 0)
  step0 := fun s _ => (s + 1, s + 1, 7, true)
  zeroObs := 0

/-- Heap holding one self-contained template object at address 0. -/
def cEnvHBase : Heap (EnvObj Nat) := ⟨1, fun _ => EnvObj.selfContained 3⟩

/-- A 2-slot pool over the self-contained template, never-done dynamics. -/
def cPoolB : PoolState Nat Nat :=
  EnvPool.init cDynStep cEnvHBase emptyObsH emptyRewH emptyDoneH 0 2

/-- A 2-slot pool over the self-contained template, always-done dynamics. -/
def cPoolA : PoolState Nat Nat :=
  EnvPool.init cDynDone cEnvHBase emptyObsH emptyRewH emptyDoneH 0 2

theorem envPool_step_autoreset_witness :
    WFPool cPoolA ∧
    ((EnvPool.step cDynDone cPoolA [(), ()]).1.rewH.mem
        (EnvPool.step cDynDone cPoolA [(), ()]).2.2.1).getD 1 0 = 7 ∧
    ((EnvPool.step cDynDone cPoolA [(), ()]).1.doneH.mem
        (EnvPool.step cDynDone cPoolA [(), ()]).2.2.2.1).getD 1 false = true ∧
    ((EnvPool.step cDynDone cPoolA [(), ()]).1.obsH.mem
        (EnvPool.step cDynDone cPoolA [(), ()]).2.1).getD 1 cDynDone.zeroObs = 0 :=
  have hwf : WFPool cPoolA :=
    ⟨by decide, by decide, by decide, by decide, by decide, by decide, by decide⟩
  have h := envPool_step_autoreset cDynDone cPoolA [(), ()] hwf 1 (by decide)
  ⟨hwf, h.1.trans (by decide), h.2.1.trans (by decide), h.2.2.trans (by decide)⟩

/-- Claim C2 counterexample: stepping a 2-slot pool with a length-1 action
batch does not fail and is not free of partial stepping: the call returns
full-length arrays in which slot 0 was stepped (reward 7, observation 1)
while slot 1 was left untouched. -/
theorem envPool_step_mismatch_cex :
    ([()] : List Unit).length ≠ cPoolB.n_envs ∧
    (EnvPool.step cDynStep cPoolB [()]).1.rewH.mem
        (EnvPool.step cDynStep cPoolB [()]).2.2.1 = [7, 0] ∧
    (EnvPool.step cDynStep cPoolB [()]).1.obsH.mem
        (EnvPool.step cDynStep cPoolB [()]).2.1 = [1, 0] ∧
    (EnvPool.step cDynStep cPoolB [()]).1.doneH.mem
        (EnvPool.step cDynStep cPoolB [()]).2.2.2.1 = [false, false] :=
  ⟨by decide, by decide, by decide, by decide⟩

theorem envPool_step_truncation_witness :
    WFPool cPoolB ∧
    (((EnvPool.step cDynStep cPoolB [()]).1.obsH.mem
        (EnvPool.step cDynStep cPoolB [()]).2.1).length = cPoolB.n_envs ∧
     ((EnvPool.step cDynStep cPoolB [()]).1.rewH.mem
        (EnvPool.step cDynStep cPoolB [()]).2.2.1).length = cPoolB.n_envs ∧
     ((EnvPool.step cDynStep cPoolB [()]).1.doneH.mem
        (EnvPool.step cDynStep cPoolB [()]).2.2.2.1).length = cPoolB.n_envs ∧
     ∀ i, (([()] : List Unit).zip cPoolB.envs).length ≤ i →
       (((EnvPool.step cDynStep cPoolB [()]).1.obsH.mem
           (EnvPool.step cDynStep cPoolB [()]).2.1).getD i cDynStep.zeroObs
         = (cPoolB.obsH.mem cPoolB.statesA).getD i cDynStep.zeroObs) ∧
       (((EnvPool.step cDynStep cPoolB [()]).1.rewH.mem
           (EnvPool.step cDynStep cPoolB [()]).2.2.1).getD i 0
         = (cPoolB.rewH.mem cPoolB.rewardsA).getD i 0) ∧
       (((EnvPool.step cDynStep cPoolB [()]).1.doneH.mem
           (EnvPool.step cDynStep cPoolB [()]).2.2.2.1).getD i false
         = (cPoolB.doneH.mem cPoolB.donesA).getD i false)) :=
  have hwf : WFPool cPoolB :=
    ⟨by decide, by decide, by decide, by decide, by decide, by decide, by decide⟩
  ⟨hwf, envPool_step_truncation cDynStep cPoolB [()] hwf⟩

/-- Claim C4: every array handed to the caller is a defensive copy. Two
consecutive `pool_states()` calls return two distinct fresh cells with
equal contents, both distinct from the internal `_states` cell; overwriting
a returned cell leaves the internal cell unchanged; a subsequent `step`
(which mutates the internal arrays in place) leaves the previously
returned cell unchanged; and the cells returned by `step` and `reset` are
themselves distinct from the pool's internal array cells. -/
theorem envPool_defensive_copies {S O A : Type} (dyn : EnvDyn S O A)
    (p : PoolState S O) (hwf : WFPool p) :
    ((EnvPool.pool_states p).2 ≠ (EnvPool.pool_states (EnvPool.pool_states p).1).2) ∧
    ((EnvPool.pool_states (EnvPool.pool_states p).1).1.obsH.mem (EnvPool.pool_states p).2
      = (EnvPool.pool_states (EnvPool.pool_states p).1).1.obsH.mem
          (EnvPool.pool_states (EnvPool.pool_states p).1).2) ∧
    ((EnvPool.pool_states p).2 ≠ p.statesA) ∧
    (∀ v, ((EnvPool.pool_states p).1.obsH.write (EnvPool.pool_states p).2 v).mem p.statesA
      = (EnvPool.pool_states p).1.obsH.mem p.statesA) ∧
    (∀ actions : List A,
      (EnvPool.step dyn (EnvPool.pool_states p).1 actions).1.obsH.mem
          (EnvPool.pool_states p).2
        = (EnvPool.pool_states p).1.obsH.mem (EnvPool.pool_states p).2) ∧
    (∀ actions : List A,
      (EnvPool.step dyn p actions).2.1 ≠ (EnvPool.step dyn p actions).1.statesA ∧
      (EnvPool.step dyn p actions).2.2.1 ≠ (EnvPool.step dyn p actions).1.rewardsA ∧
      (EnvPool.step dyn p actions).2.2.2.1 ≠ (EnvPool.step dyn p actions).1.donesA) ∧
    ((EnvPool.reset dyn p).2 ≠ (EnvPool.reset dyn p).1.statesA) := by
  refine ⟨?_, ?_, ?_, ?_, ?_, ?_, ?_⟩
  · exact Nat.ne_of_lt (Nat.lt_succ_self _)
  · exact ((Heap.mem_alloc_lt (EnvPool.pool_states p).1.obsH
        ((EnvPool.pool_states p).1.obsH.mem p.statesA) (EnvPool.pool_states p).2
        (Nat.lt_succ_self _)).trans
      (Heap.mem_alloc_self p.obsH (p.obsH.mem p.statesA))).trans
      ((Heap.mem_alloc_self (EnvPool.pool_states p).1.obsH
          ((EnvPool.pool_states p).1.obsH.mem p.statesA)).trans
        (Heap.mem_alloc_lt p.obsH (p.obsH.mem p.statesA) p.statesA hwf.1)).symm
  · exact (Nat.ne_of_lt hwf.1).symm
  · exact fun v => Heap.mem_write_ne _ _ _ _ (Nat.ne_of_lt hwf.1)
  · intro actions
    have hf := stepLoop_frames dyn (EnvPool.pool_states p).1.statesA
      (EnvPool.pool_states p).1.rewardsA (EnvPool.pool_states p).1.donesA
      (actions.zip (EnvPool.pool_states p).1.envs) 0 (EnvPool.pool_states p).1.envH
      (EnvPool.pool_states p).1.obsH (EnvPool.pool_states p).1.rewH
      (EnvPool.pool_states p).1.doneH
    refine (Heap.mem_alloc_lt _ _ (EnvPool.pool_states p).2 ?_).trans
      (hf.1 (EnvPool.pool_states p).2 ((Nat.ne_of_lt hwf.1).symm))
    rw [hf.2.2.2.1]
    exact Nat.lt_succ_self _
  · intro actions
    have hf := stepLoop_frames dyn p.statesA p.rewardsA p.donesA (actions.zip p.envs)
      0 p.envH p.obsH p.rewH p.doneH
    refine ⟨?_, ?_, ?_⟩
    · show (EnvPool.stepLoop dyn p.statesA p.rewardsA p.donesA 0 (actions.zip p.envs)
          p.envH p.obsH p.rewH p.doneH).2.1.next ≠ p.statesA
      rw [hf.2.2.2.1]
      exact (Nat.ne_of_lt hwf.1).symm
    · show (EnvPool.stepLoop dyn p.statesA p.rewardsA p.donesA 0 (actions.zip p.envs)
          p.envH p.obsH p.rewH p.doneH).2.2.1.next ≠ p.rewardsA
      rw [hf.2.2.2.2.1]
      exact (Nat.ne_of_lt hwf.2.1).symm
    · show (EnvPool.stepLoop dyn p.statesA p.rewardsA p.donesA 0 (actions.zip p.envs)
          p.envH p.obsH p.rewH p.doneH).2.2.2.next ≠ p.donesA
      rw [hf.2.2.2.2.2.1]
      exact (Nat.ne_of_lt hwf.2.2.1).symm
  · show (EnvPool.resetLoop dyn (p.obsH.alloc (List.replicate p.n_envs dyn.zeroObs)).2 0
        p.envs p.envH (p.obsH.alloc (List.replicate p.n_envs dyn.zeroObs)).1).2.next
      ≠ (p.obsH.alloc (List.replicate p.n_envs dyn.zeroObs)).2
    rw [(resetLoop_frames dyn (p.obsH.alloc (List.replicate p.n_envs dyn.zeroObs)).2
      p.envs 0 p.envH (p.obsH.alloc (List.replicate p.n_envs dyn.zeroObs)).1).2.1]
    exact Nat.succ_ne_self _

/-- Specification of `EnvPool.reset`: it keeps the slot objects, rebinds
the three arrays to fresh cells (rewards and dones zeroed), resets the
slots in index order (leaving the environment heap as `heapAfterResets`)
storing each observation at its slot index, and returns a fresh copy of
the states cell. The resulting pool state is well formed. -/
theorem envPool_reset_spec {S O A : Type} (dyn : EnvDyn S O A)
    (p : PoolState S O) (hn : p.envs.length = p.n_envs) :
    ((EnvPool.reset dyn p).1.envs = p.envs) ∧
    ((EnvPool.reset dyn p).1.n_envs = p.n_envs) ∧
    ((EnvPool.reset dyn p).1.rewH.mem (EnvPool.reset dyn p).1.rewardsA
      = List.replicate p.n_envs (0 : Rat)) ∧
    ((EnvPool.reset dyn p).1.doneH.mem (EnvPool.reset dyn p).1.donesA
      = List.replicate p.n_envs false) ∧
    ((EnvPool.reset dyn p).1.envH = heapAfterResets dyn p.envH p.envs) ∧
    ((EnvPool.reset dyn p).1.obsH.mem (EnvPool.reset dyn p).2
      = (EnvPool.reset dyn p).1.obsH.mem (EnvPool.reset dyn p).1.statesA) ∧
    ((EnvPool.reset dyn p).2 ≠ (EnvPool.reset dyn p).1.statesA) ∧
    (((EnvPool.reset dyn p).1.obsH.mem (EnvPool.reset dyn p).1.statesA).length
      = p.n_envs) ∧
    (∀ j (hj : j < p.envs.length) (dO : O),
      ((EnvPool.reset dyn p).1.obsH.mem (EnvPool.reset dyn p).1.statesA).getD j dO
        = (envReset dyn (heapAfterResets dyn p.envH (p.envs.take j))
            (p.envs.get ⟨j, hj⟩)).2) ∧
    WFPool (EnvPool.reset dyn p).1 := by
  have hframes := resetLoop_frames dyn (p.obsH.alloc (List.replicate p.n_envs dyn.zeroObs)).2 p.envs 0 p.envH (p.obsH.alloc (List.replicate p.n_envs dyn.zeroObs)).1
  have hzeros : (p.obsH.alloc (List.replicate p.n_envs dyn.zeroObs)).1.mem (p.obsH.alloc (List.replicate p.n_envs dyn.zeroObs)).2 = List.replicate p.n_envs dyn.zeroObs :=
    Heap.mem_alloc_self _ _
  have hlt : (p.obsH.alloc (List.replicate p.n_envs dyn.zeroObs)).2 < (EnvPool.resetLoop dyn (p.obsH.alloc (List.replicate p.n_envs dyn.zeroObs)).2 0 p.envs p.envH (p.obsH.alloc (List.replicate p.n_envs dyn.zeroObs)).1).2.next := by
    rw [hframes.2.1]
    exact Nat.lt_succ_self _
  have hmemret : (EnvPool.reset dyn p).1.obsH.mem (EnvPool.reset dyn p).2
      = (EnvPool.resetLoop dyn (p.obsH.alloc (List.replicate p.n_envs dyn.zeroObs)).2 0 p.envs p.envH (p.obsH.alloc (List.replicate p.n_envs dyn.zeroObs)).1).2.mem (p.obsH.alloc (List.replicate p.n_envs dyn.zeroObs)).2 := Heap.mem_alloc_self _ _
  have hmemint : (EnvPool.reset dyn p).1.obsH.mem (EnvPool.reset dyn p).1.statesA
      = (EnvPool.resetLoop dyn (p.obsH.alloc (List.replicate p.n_envs dyn.zeroObs)).2 0 p.envs p.envH (p.obsH.alloc (List.replicate p.n_envs dyn.zeroObs)).1).2.mem (p.obsH.alloc (List.replicate p.n_envs dyn.zeroObs)).2 := Heap.mem_alloc_lt _ _ _ hlt
  have hlen8 : ((EnvPool.reset dyn p).1.obsH.mem (EnvPool.reset dyn p).1.statesA).length
      = p.n_envs := by
    rw [hmemint, hframes.2.2, hzeros, List.length_replicate]
  have hret : (EnvPool.reset dyn p).2 ≠ (EnvPool.reset dyn p).1.statesA := by
    intro heq
    have h2 : (EnvPool.resetLoop dyn (p.obsH.alloc (List.replicate p.n_envs dyn.zeroObs)).2 0 p.envs p.envH (p.obsH.alloc (List.replicate p.n_envs dyn.zeroObs)).1).2.next = (p.obsH.alloc (List.replicate p.n_envs dyn.zeroObs)).2 := heq
    rw [hframes.2.1] at h2
    have h3 : p.obsH.next + 1 = p.obsH.next := h2
    omega
  have hgetD : ∀ j (hj : j < p.envs.length) (dO : O),
      ((EnvPool.reset dyn p).1.obsH.mem (EnvPool.reset dyn p).1.statesA).getD j dO
        = (envReset dyn (heapAfterResets dyn p.envH (p.envs.take j))
            (p.envs.get ⟨j, hj⟩)).2 := by
    intro j hj dO
    have hspec := resetLoop_spec dyn (p.obsH.alloc (List.replicate p.n_envs dyn.zeroObs)).2 p.envs 0 p.envH (p.obsH.alloc (List.replicate p.n_envs dyn.zeroObs)).1
      (by rw [Nat.zero_add, hzeros, List.length_replicate]; exact le_of_eq hn) j hj dO
    simp only [Nat.zero_add] at hspec
    rw [hmemint]
    exact hspec
  refine ⟨rfl, rfl, Heap.mem_alloc_self _ _, Heap.mem_alloc_self _ _,
    resetLoop_envH dyn _ p.envs 0 p.envH _, hmemret.trans hmemint.symm, hret, hlen8,
    hgetD, ?_, ?_, ?_, hlen8, ?_, ?_, hn⟩
  · exact Nat.lt_succ_of_lt hlt
  · exact Nat.lt_succ_self _
  · exact Nat.lt_succ_self _
  · rw [show (EnvPool.reset dyn p).1.rewH.mem (EnvPool.reset dyn p).1.rewardsA
      = List.replicate p.n_envs (0 : Rat) from Heap.mem_alloc_self _ _,
      List.length_replicate]
    rfl
  · rw [show (EnvPool.reset dyn p).1.doneH.mem (EnvPool.reset dyn p).1.donesA
      = List.replicate p.n_envs false from Heap.mem_alloc_self _ _,
      List.length_replicate]
    rfl

/-- Resetting a list of distinct self-contained slots in order: each slot's
`reset()` sees the untouched template state and observes `reset0 s0`. -/
theorem heapAfterResets_obs {S O A : Type} (dyn : EnvDyn S O A) :
    ∀ (addrs : List Addr) (eh : Heap (EnvObj S)) (s0 : S) (j : Nat)
      (hj : j < addrs.length),
      addrs.Nodup → (∀ a ∈ addrs, eh.mem a = EnvObj.selfContained s0) →
      (envReset dyn (heapAfterResets dyn eh (addrs.take j)) (addrs.get ⟨j, hj⟩)).2
        = (dyn.reset0 s0).2 := by
  intro addrs
  induction addrs with
  | nil => intro eh s0 j hj; exact absurd hj (by simp)
  | cons e rest ih =>
      intro eh s0 j hj hnd hcells
      obtain ⟨her, hndr⟩ := List.nodup_cons.mp hnd
      have hs : eh.mem e = EnvObj.selfContained s0 := hcells e (List.mem_cons_self _ _)
      cases j with
      | zero =>
          have hget : (e :: rest).get ⟨0, hj⟩ = e := rfl
          have htake : (e :: rest).take 0 = [] := rfl
          rw [hget, htake]
          show (envReset dyn eh e).2 = (dyn.reset0 s0).2
          simp [envReset, hs]
      | succ j' =>
          have hjr : j' < rest.length := Nat.lt_of_succ_lt_succ hj
          have hget : (e :: rest).get ⟨j' + 1, hj⟩ = rest.get ⟨j', hjr⟩ := rfl
          have htake : (e :: rest).take (j' + 1) = e :: rest.take j' := rfl
          rw [hget, htake]
          simp only [heapAfterResets]
          have hstep : (envReset dyn eh e).1
              = eh.write e (EnvObj.selfContained (dyn.reset0 s0).1) := by
            simp only [envReset, hs]
          rw [hstep]
          refine ih _ s0 j' hjr hndr ?_
          intro x hx
          have hxe : x ≠ e := fun hxa => her (hxa ▸ hx)
          rw [Heap.mem_write_ne _ _ _ _ hxe]
          exact hcells x (List.mem_cons_of_mem _ hx)

/-- Claim C5 (amended): the slot environments are created once, by the
constructor via `recreate_envs`, as shallow copies of the template (which
share any inner object the template references, so the slots are not
deep-independent in general); `reset()` keeps the very same slot objects,
rebinds the three batch arrays to fresh cells with the rewards and done
flags zeroed, resets each existing slot in index order collecting the
initial observations, and returns a fresh copy of the observation batch. -/
theorem envPool_reset_reuses_envs {S O A : Type} (dyn : EnvDyn S O A)
    (p : PoolState S O) (hwf : WFPool p) :
    ((EnvPool.reset dyn p).1.envs = p.envs) ∧
    ((EnvPool.reset dyn p).1.rewH.mem (EnvPool.reset dyn p).1.rewardsA
      = List.replicate p.n_envs (0 : Rat)) ∧
    ((EnvPool.reset dyn p).1.doneH.mem (EnvPool.reset dyn p).1.donesA
      = List.replicate p.n_envs false) ∧
    (∀ j (hj : j < p.envs.length) (dO : O),
      ((EnvPool.reset dyn p).1.obsH.mem (EnvPool.reset dyn p).2).getD j dO
        = (envReset dyn (heapAfterResets dyn p.envH (p.envs.take j))
            (p.envs.get ⟨j, hj⟩)).2) ∧
    ((EnvPool.reset dyn p).2 ≠ (EnvPool.reset dyn p).1.statesA) ∧
    ((EnvPool.reset dyn p).1.obsH.mem (EnvPool.reset dyn p).2
      = (EnvPool.reset dyn p).1.obsH.mem (EnvPool.reset dyn p).1.statesA) := by
  obtain ⟨h1, h2, h3, h4, h5, h6, h7, h8, h9, h10⟩ :=
    envPool_reset_spec dyn p hwf.2.2.2.2.2.2
  exact ⟨h1, h3, h4, fun j hj dO => by rw [h6]; exact h9 j hj dO, h7, h6⟩

/-- Heap with a self-contained inner environment at address 0 and a wrapper
template at address 1 whose `env` attribute references address 0 (the shape
of any `gym` wrapper such as `TimeLimit` or `FrameBuffer`). -/
def cEnvHShared : Heap (EnvObj Nat) :=
  ⟨2, fun a => if a = 0 then EnvObj.selfContained 3 else EnvObj.wrapperOf 0⟩

/-- A 2-slot pool built from the wrapper template. -/
def cPoolC : PoolState Nat Nat :=
  EnvPool.init cDynStep cEnvHShared emptyObsH emptyRewH emptyDoneH 1 2

/-- Claim C5 counterexample: with a wrapper template (the shape produced by
`gym.make` and the wrappers of this repository), the two slot environments
created by the pool are shallow copies sharing the template's inner object,
so they are not deep-independent: after construction both slots are
wrappers of address 0, and stepping slot 0's environment changes what slot
1's environment subsequently observes (2 instead of 1). Moreover `reset()`
keeps the same slot objects instead of creating new ones. -/
theorem envPool_shallow_copy_cex :
    (cPoolC.envH.mem (cPoolC.envs.getD 0 0) = EnvObj.wrapperOf 0 ∧
     cPoolC.envH.mem (cPoolC.envs.getD 1 0) = EnvObj.wrapperOf 0) ∧
    (envStep cDynStep cPoolC.envH (cPoolC.envs.getD 1 0) ()).2.1 = 1 ∧
    (envStep cDynStep
        (envStep cDynStep cPoolC.envH (cPoolC.envs.getD 0 0) ()).1
        (cPoolC.envs.getD 1 0) ()).2.1 = 2 ∧
    (1 : Nat) ≠ 2 ∧
    (EnvPool.reset cDynStep cPoolC).1.envs = cPoolC.envs :=
  ⟨⟨by decide, by decide⟩, by decide, by decide, by decide, rfl⟩

theorem envPool_reset_reuses_envs_witness :
    WFPool cPoolB ∧
    ((EnvPool.reset cDynStep cPoolB).1.envs = cPoolB.envs ∧
     (EnvPool.reset cDynStep cPoolB).1.rewH.mem (EnvPool.reset cDynStep cPoolB).1.rewardsA
       = List.replicate cPoolB.n_envs (0 : Rat) ∧
     (EnvPool.reset cDynStep cPoolB).1.doneH.mem (EnvPool.reset cDynStep cPoolB).1.donesA
       = List.replicate cPoolB.n_envs false ∧
     (∀ j (hj : j < cPoolB.envs.length) (dO : Nat),
       ((EnvPool.reset cDynStep cPoolB).1.obsH.mem (EnvPool.reset cDynStep cPoolB).2).getD j dO
         = (envReset cDynStep (heapAfterResets cDynStep cPoolB.envH (cPoolB.envs.take j))
             (cPoolB.envs.get ⟨j, hj⟩)).2) ∧
     ((EnvPool.reset cDynStep cPoolB).2 ≠ (EnvPool.reset cDynStep cPoolB).1.statesA) ∧
     ((EnvPool.reset cDynStep cPoolB).1.obsH.mem (EnvPool.reset cDynStep cPoolB).2
       = (EnvPool.reset cDynStep cPoolB).1.obsH.mem
           (EnvPool.reset cDynStep cPoolB).1.statesA)) :=
  have hwf : WFPool cPoolB :=
    ⟨by decide, by decide, by decide, by decide, by decide, by decide, by decide⟩
  ⟨hwf, envPool_reset_reuses_envs cDynStep cPoolB hwf⟩

/-- Claim C10: `EnvPool.__init__` itself creates the `n` slot environments
and performs a full reset before returning: with a self-contained template
in state `s0`, every slot object ends in the state of exactly one `reset0`
applied to the template state, the states array holds the `n` initial
observations, the reward and done arrays are zeroed, and `pool_states()`
already returns a fresh valid copy of the batch without any explicit
`reset()` call by the caller. -/
theorem envPool_init_resets_once {S O A : Type} (dyn : EnvDyn S O A)
    (envH0 : Heap (EnvObj S)) (obsH0 : Heap (List O)) (rewH0 : Heap (List Rat))
    (doneH0 : Heap (List Bool)) (tmpl : Addr) (n : Nat) (s0 : S)
    (htmpl : tmpl < envH0.next)
    (hs0 : envH0.mem tmpl = EnvObj.selfContained s0) :
    ((EnvPool.init dyn envH0 obsH0 rewH0 doneH0 tmpl n).envs.length = n) ∧
    (∀ a ∈ (EnvPool.init dyn envH0 obsH0 rewH0 doneH0 tmpl n).envs,
      (EnvPool.init dyn envH0 obsH0 rewH0 doneH0 tmpl n).envH.mem a
        = EnvObj.selfContained (dyn.reset0 s0).1) ∧
    (((EnvPool.init dyn envH0 obsH0 rewH0 doneH0 tmpl n).obsH.mem
        (EnvPool.init dyn envH0 obsH0 rewH0 doneH0 tmpl n).statesA).length = n) ∧
    (∀ j (hj : j < n) (dO : O),
      ((EnvPool.init dyn envH0 obsH0 rewH0 doneH0 tmpl n).obsH.mem
          (EnvPool.init dyn envH0 obsH0 rewH0 doneH0 tmpl n).statesA).getD j dO
        = (dyn.reset0 s0).2) ∧
    ((EnvPool.init dyn envH0 obsH0 rewH0 doneH0 tmpl n).rewH.mem
        (EnvPool.init dyn envH0 obsH0 rewH0 doneH0 tmpl n).rewardsA
      = List.replicate n (0 : Rat)) ∧
    ((EnvPool.init dyn envH0 obsH0 rewH0 doneH0 tmpl n).doneH.mem
        (EnvPool.init dyn envH0 obsH0 rewH0 doneH0 tmpl n).donesA
      = List.replicate n false) ∧
    ((EnvPool.pool_states (EnvPool.init dyn envH0 obsH0 rewH0 doneH0 tmpl n)).1.obsH.mem
        (EnvPool.pool_states (EnvPool.init dyn envH0 obsH0 rewH0 doneH0 tmpl n)).2
      = (EnvPool.init dyn envH0 obsH0 rewH0 doneH0 tmpl n).obsH.mem
          (EnvPool.init dyn envH0 obsH0 rewH0 doneH0 tmpl n).statesA) ∧
    ((EnvPool.pool_states (EnvPool.init dyn envH0 obsH0 rewH0 doneH0 tmpl n)).2
      ≠ (EnvPool.init dyn envH0 obsH0 rewH0 doneH0 tmpl n).statesA) := by
  have hac := allocCopies_spec n envH0 tmpl htmpl
  have hqenvs : (EnvPool.recreate_envs
      (⟨envH0, obsH0, rewH0, doneH0, tmpl, n, [], 0, 0, 0⟩ : PoolState S O)).envs
      = List.range' envH0.next n := hac.1
  have hn : (EnvPool.recreate_envs
      (⟨envH0, obsH0, rewH0, doneH0, tmpl, n, [], 0, 0, 0⟩ : PoolState S O)).envs.length
      = (EnvPool.recreate_envs
      (⟨envH0, obsH0, rewH0, doneH0, tmpl, n, [], 0, 0, 0⟩ : PoolState S O)).n_envs := by
    rw [hqenvs]
    simp only [List.length_range']
    rfl
  obtain ⟨s1, s2, s3, s4, s5, s6, s7, s8, s9, s10⟩ := envPool_reset_spec dyn
    (EnvPool.recreate_envs (⟨envH0, obsH0, rewH0, doneH0, tmpl, n, [], 0, 0, 0⟩ : PoolState S O)) hn
  have hcells : ∀ x ∈ (EnvPool.recreate_envs
      (⟨envH0, obsH0, rewH0, doneH0, tmpl, n, [], 0, 0, 0⟩ : PoolState S O)).envs,
      (EnvPool.recreate_envs
        (⟨envH0, obsH0, rewH0, doneH0, tmpl, n, [], 0, 0, 0⟩ : PoolState S O)).envH.mem x
        = EnvObj.selfContained s0 := by
    intro x hx
    have hx' : x ∈ List.range' envH0.next n := by
      rw [← hqenvs]
      exact hx
    have hmem := hac.2.2.2 x hx'
    rw [hs0] at hmem
    exact hmem
  have hnd : (EnvPool.recreate_envs
      (⟨envH0, obsH0, rewH0, doneH0, tmpl, n, [], 0, 0, 0⟩ : PoolState S O)).envs.Nodup := by
    rw [hqenvs]
    exact List.nodup_range' envH0.next n
  refine ⟨?_, ?_, s8, ?_, s3, s4, Heap.mem_alloc_self _ _, (Nat.ne_of_lt s10.1).symm⟩
  · have h2 : (EnvPool.init dyn envH0 obsH0 rewH0 doneH0 tmpl n).envs
        = List.range' envH0.next n := s1.trans hqenvs
    rw [h2]
    simp only [List.length_range']
  · intro a ha
    have ha' : a ∈ (EnvPool.recreate_envs
        (⟨envH0, obsH0, rewH0, doneH0, tmpl, n, [], 0, 0, 0⟩ : PoolState S O)).envs :=
      s1 ▸ ha
    have hcell := heapAfterResets_cells dyn _ _ s0 hnd hcells a ha'
    exact (congrArg (fun h => Heap.mem h a) s5).trans hcell
  · intro j hj dO
    have hj' : j < (EnvPool.recreate_envs
        (⟨envH0, obsH0, rewH0, doneH0, tmpl, n, [], 0, 0, 0⟩ : PoolState S O)).envs.length := by
      rw [hqenvs]
      simpa using hj
    refine (s9 j hj' dO).trans ?_
    exact heapAfterResets_obs dyn _ _ s0 j hj' hnd hcells

/-- Counting dynamics for the C10 witness: each `reset` increments the
state (so the slot state records how many resets happened) and observes
the pre-reset state. -/
def cDynC : EnvDyn Nat Nat Unit where
  reset0 := fun s => (s + 1, s)
  step0 := fun s _ => (s + 1, s + 1, 0, false)
  zeroObs := 0

theorem envPool_init_resets_once_witness :
    ((0 : Addr) < cEnvHBase.next ∧ cEnvHBase.mem 0 = EnvObj.selfContained 3) ∧
    (((EnvPool.init cDynC cEnvHBase emptyObsH emptyRewH emptyDoneH 0 2).envs.length = 2) ∧
     (∀ a ∈ (EnvPool.init cDynC cEnvHBase emptyObsH emptyRewH emptyDoneH 0 2).envs, (EnvPool.init cDynC cEnvHBase emptyObsH emptyRewH emptyDoneH 0 2).envH.mem a = EnvObj.selfContained (cDynC.reset0 3).1) ∧
     (((EnvPool.init cDynC cEnvHBase emptyObsH emptyRewH emptyDoneH 0 2).obsH.mem (EnvPool.init cDynC cEnvHBase emptyObsH emptyRewH emptyDoneH 0 2).statesA).length = 2) ∧
     (∀ j (hj : j < 2) (dO : Nat),
       ((EnvPool.init cDynC cEnvHBase emptyObsH emptyRewH emptyDoneH 0 2).obsH.mem (EnvPool.init cDynC cEnvHBase emptyObsH emptyRewH emptyDoneH 0 2).statesA).getD j dO = (cDynC.reset0 3).2) ∧
     ((EnvPool.init cDynC cEnvHBase emptyObsH emptyRewH emptyDoneH 0 2).rewH.mem (EnvPool.init cDynC cEnvHBase emptyObsH emptyRewH emptyDoneH 0 2).rewardsA = List.replicate 2 (0 : Rat)) ∧
     ((EnvPool.init cDynC cEnvHBase emptyObsH emptyRewH emptyDoneH 0 2).doneH.mem (EnvPool.init cDynC cEnvHBase emptyObsH emptyRewH emptyDoneH 0 2).donesA = List.replicate 2 false) ∧
     ((EnvPool.pool_states (EnvPool.init cDynC cEnvHBase emptyObsH emptyRewH emptyDoneH 0 2)).1.obsH.mem (EnvPool.pool_states (EnvPool.init cDynC cEnvHBase emptyObsH emptyRewH emptyDoneH 0 2)).2
       = (EnvPool.init cDynC cEnvHBase emptyObsH emptyRewH emptyDoneH 0 2).obsH.mem (EnvPool.init cDynC cEnvHBase emptyObsH emptyRewH emptyDoneH 0 2).statesA) ∧
     ((EnvPool.pool_states (EnvPool.init cDynC cEnvHBase emptyObsH emptyRewH emptyDoneH 0 2)).2 ≠ (EnvPool.init cDynC cEnvHBase emptyObsH emptyRewH emptyDoneH 0 2).statesA)) :=
  ⟨⟨by decide, by decide⟩,
    envPool_init_resets_once cDynC cEnvHBase emptyObsH emptyRewH emptyDoneH 0 2 3
      (by decide) (by decide)⟩

theorem envPool_defensive_copies_witness :
    WFPool cPoolB ∧
    (((EnvPool.pool_states cPoolB).2 ≠ (EnvPool.pool_states (EnvPool.pool_states cPoolB).1).2) ∧
     ((EnvPool.pool_states (EnvPool.pool_states cPoolB).1).1.obsH.mem (EnvPool.pool_states cPoolB).2
       = (EnvPool.pool_states (EnvPool.pool_states cPoolB).1).1.obsH.mem
           (EnvPool.pool_states (EnvPool.pool_states cPoolB).1).2) ∧
     ((EnvPool.pool_states cPoolB).2 ≠ cPoolB.statesA) ∧
     (∀ v, ((EnvPool.pool_states cPoolB).1.obsH.write (EnvPool.pool_states cPoolB).2 v).mem
         cPoolB.statesA
       = (EnvPool.pool_states cPoolB).1.obsH.mem cPoolB.statesA) ∧
     (∀ actions : List Unit,
       (EnvPool.step cDynStep (EnvPool.pool_states cPoolB).1 actions).1.obsH.mem
           (EnvPool.pool_states cPoolB).2
         = (EnvPool.pool_states cPoolB).1.obsH.mem (EnvPool.pool_states cPoolB).2) ∧
     (∀ actions : List Unit,
       (EnvPool.step cDynStep cPoolB actions).2.1 ≠ (EnvPool.step cDynStep cPoolB actions).1.statesA ∧
       (EnvPool.step cDynStep cPoolB actions).2.2.1
         ≠ (EnvPool.step cDynStep cPoolB actions).1.rewardsA ∧
       (EnvPool.step cDynStep cPoolB actions).2.2.2.1
         ≠ (EnvPool.step cDynStep cPoolB actions).1.donesA) ∧
     ((EnvPool.reset cDynStep cPoolB).2 ≠ (EnvPool.reset cDynStep cPoolB).1.statesA)) :=
  have hwf : WFPool cPoolB :=
    ⟨by decide, by decide, by decide, by decide, by decide, by decide, by decide⟩
  ⟨hwf, envPool_defensive_copies cDynStep cPoolB hwf⟩
